import Mathlib

/-!
Shallow embedding of the AST-to-IR lowering pipeline of the `uwucc`
compiler (`src/analysis/src/lower.rs`, `src/analysis/src/ir/visit.rs`,
`src/parser/src/ast.rs`), together with proofs of the specification
claims about it.

The parser AST and the lowering pass are translated from the source.
The IR data model, the type interner's `Ty` reference type, the control
flow graph builder (`builder.rs`) and the `Error` type are declared in
the repository but their defining files are not in the provided sources;
they are modelled from the spec where noted.

Rust references into the interning arena are modelled as a pair of the
arena index (the address: identity equality is index equality) and the
pointed-to value.  Mutation of the interner and of the function builder
is modelled by explicit state passing.  Panics (`todo!`, `unwrap`,
assertion failures) are a distinguished `abort` outcome, kept separate
from the recoverable `Error` result.
-/

namespace Uwucc

/-- Source span attached to every AST node (`parser::Span`). -/
structure Span where
  lo : Nat
  hi : Nat
deriving DecidableEq, Repr

/-- Interned string (`parser::Symbol`); modelled as the string itself. -/
abbrev Symbol := String

/-- `parser::Spanned<T>` is a pair of a value and its span. -/
abbrev Spanned (α : Type) := α × Span

abbrev Ident := Spanned Symbol

/-! ## AST (`src/parser/src/ast.rs`) -/

inductive IntSign where
  | Signed
  | Unsigned
deriving DecidableEq, Repr

/-- Integer width classes handled by `layout_of` (`ast::IntTyKind`). -/
inductive IntTyKind where
  | Short
  | Int
  | Long
  | LongLong
deriving DecidableEq, Repr

/-- `ast::IntTy`: sign and width class, accessed as `int.kind` in `lower.rs`. -/
structure IntTy where
  sign : IntSign
  kind : IntTyKind
deriving DecidableEq, Repr

/-- `ast::TypeSpecifier`, with the variants matched in `LoweringCx::lower_ty`. -/
inductive TypeSpecifier where
  | Void
  | Char
  | SChar
  | UChar
  | Integer (int : IntTy)
  | Float
  | Double
  | LongDouble
  | Bool
deriving DecidableEq, Repr

/-- `ast::DeclAttr` bitflags (EXTERN/STATIC/THREAD_LOCAL), as the raw byte. -/
abbrev DeclAttr := Nat

inductive UnaryOp where
  | Increment
  | Decrement
  | AddrOf
  | Deref
  | Plus
  | Minus
  | Tilde
  | Bang
deriving DecidableEq, Repr

inductive ArithOpKind where
  | Mul
  | Div
  | Mod
  | Add
  | Sub
  | Shl
  | Shr
  | BitAnd
  | BitXor
  | BitOr
deriving DecidableEq, Repr

inductive ComparisonKind where
  | Lt
  | Gt
  | LtEq
  | GtEq
  | Eq
  | Neq
deriving DecidableEq, Repr

inductive BinaryOp where
  | Arith (k : ArithOpKind)
  | LogicalAnd
  | LogicalOr
  | Comparison (k : ComparisonKind)
  | Comma
  | Index
  | Assign (k : Option ArithOpKind)
deriving DecidableEq, Repr

/-- `ast::Atom`.  Integer literals are `u128` values, character literals `u8`,
modelled as `Nat`; the float payload is irrelevant to lowering (it aborts)
and is dropped. -/
inductive Atom where
  | Ident (id : Ident)
  | Int (i : Nat)
  | Float
  | String (bytes : List Nat)
  | Char (c : Nat)
deriving DecidableEq, Repr

mutual
/-- `ast::Expr`; `Binary` carries `(op, lhs, rhs)` of `ast::ExprBinary`,
`Postfix` carries `(lhs, op)` of `ast::ExprPostfix`. -/
inductive Expr where
  | Atom (a : Atom)
  | Unary (op : UnaryOp) (rhs : Expr × Span)
  | Binary (op : BinaryOp) (lhs rhs : Expr × Span)
  | Postfix (lhs : Expr × Span) (op : PostfixOp)
deriving Repr

/-- `ast::PostfixOp`. -/
inductive PostfixOp where
  | Call (args : List (Expr × Span))
  | Member (id : Ident)
  | ArrowMember (id : Ident)
  | Increment
  | Decrement
deriving Repr
end

structure DeclSpec where
  ty : TypeSpecifier
  attrs : DeclAttr
deriving Repr

/-- `ast::DirectDeclarator`; parameter declarations are opaque to lowering
and modelled by their count. -/
inductive DirectDeclarator where
  | Ident (id : Ident)
  | WithParams (id : Ident) (params : Nat)
deriving Repr

/-- `DirectDeclarator::name`. -/
def DirectDeclarator.name : DirectDeclarator → Spanned Symbol
  | .Ident id => id
  | .WithParams id _ => id

structure Declarator where
  decl : DirectDeclarator
  pointer : Bool
deriving Repr

structure InitDecl where
  declarator : Declarator
  init : Option (Spanned Expr)
deriving Repr

structure NormalDecl where
  decl_spec : DeclSpec
  init_declarators : List (Spanned InitDecl)
deriving Repr

inductive Decl where
  | Normal (d : NormalDecl)
  | StaticAssert
deriving Repr

/-- `ast::Stmt`.  `For`'s init declaration is simplified away (its arm is an
unconditional `todo!`), the other payloads are kept. -/
inductive Stmt where
  | Decl (d : Decl)
  | Labeled (label : Ident) (stmt : Stmt × Span)
  | Compound (stmts : List (Stmt × Span))
  | If (cond : Expr × Span) (then_ : List (Stmt × Span))
      (otherwise : Option (List (Stmt × Span)))
  | Switch
  | While (cond : Expr) (body : List (Stmt × Span))
  | For (init_expr cond post : Option (Expr × Span)) (body : List (Stmt × Span))
  | Goto (l : Ident)
  | Continue
  | Break
  | Return (e : Option (Expr × Span))
  | Expr (e : Expr)
deriving Repr

structure FunctionDef where
  decl : Decl
  body : List (Spanned Stmt)
deriving Repr

inductive ExternalDecl where
  | Decl (d : Decl)
  | FunctionDef (def_ : FunctionDef)
deriving Repr

abbrev TranslationUnit := List (Spanned ExternalDecl)

/-- `Decl::uwnrap_normal` (sic): panics on a static assert declaration. -/
def Decl.uwnrap_normal : Decl → Option NormalDecl
  | .Normal d => some d
  | .StaticAssert => none

/-! ## IR data model

Modelled from the spec: the defining module (`analysis/src/ir`, apart from
`visit.rs`) is not among the provided sources; the entities below follow
spec §3 (Register, ConstValue, Operand, StatementKind, Statement, Branch,
BasicBlock, Func) and the field/role names used by `lower.rs` and
`visit.rs`. -/

/-- Opaque handle for one produced IR value; fresh ones are allocated
monotonically by the builder. -/
abbrev Register := Nat

/-- Compile-time constant: a 128-bit integer literal. -/
inductive ConstValue where
  | Int (i : Int)
deriving DecidableEq, Repr

/-- Tagged value: a register reference or a constant. -/
inductive Operand where
  | Reg (r : Register)
  | Const (c : ConstValue)
deriving DecidableEq, Repr

/-- IR binary operation kinds, as produced by `lower_expr`. -/
inductive BinKind where
  | Mul
  | Div
  | Mod
  | Add
  | Sub
  | Lt
  | Gt
  | Leq
  | Geq
  | Eq
  | Neq
deriving DecidableEq, Repr

/-- Kind of a `UnaryOperation` statement; never constructed by the current
lowering pipeline, kept opaque. -/
abbrev UnaryKind := Nat

/-- Statement kinds with the operand roles of spec §3 / `visit.rs`. -/
inductive StatementKind where
  | Alloca (result : Register) (size align : Nat)
  | Store (ptr value : Operand) (size align : Nat)
  | Load (result : Register) (ptr : Operand) (size align : Nat)
  | BinOp (kind : BinKind) (lhs rhs : Operand) (result : Register)
  | UnaryOperation (rhs : Operand) (kind : UnaryKind) (result : Register)
  | PtrOffset (result : Register) (ptr : Operand) (amount : Operand)
  | Call (result : Register) (func : Operand) (args : List Operand)
deriving DecidableEq, Repr

/-- A statement kind plus its source span. -/
structure Statement where
  kind : StatementKind
  span : Span
deriving DecidableEq, Repr

/-- Block terminator; `Unset` exists only during construction.  Block
handles are indices into the function's block list. -/
inductive Branch where
  | Goto (target : Nat)
  | Switch (cond : Operand) (yes no : Nat)
  | Unset
deriving DecidableEq, Repr

/-- Ordered statements plus one terminator. -/
structure BasicBlock where
  statements : List Statement
  term : Branch
deriving DecidableEq, Repr

/-! ## Types, layouts and the interner (`LoweringCx` in `lower.rs`)

`TyKind` and `Ty` live in the missing `analysis/src/ty.rs`; the variant
list is modelled from spec §3 and the constructors used by `lower.rs`.
An arena reference is modelled as the pair of its allocation index in the
arena (identity: two references are identity-equal iff their indices are
equal) and the pointed-to value. -/

/-- Type descriptor.  `Ptr`'s pointee and the unimplemented aggregate
variants carry the arena index of their interned payload. -/
inductive TyKind where
  | Void
  | Char
  | SChar
  | UChar
  | Integer (int : IntTy)
  | Float
  | Double
  | LongDouble
  | Bool
  | Struct (id : Nat)
  | Union (id : Nat)
  | Enum (id : Nat)
  | Ptr (pointee : Nat)
deriving DecidableEq, Repr

/-- Interned reference to a `TyKind` (Rust `Ty<'cx>`): arena index plus
the pointed-to kind. -/
structure Ty where
  idx : Nat
  kind : TyKind
deriving DecidableEq, Repr

/-- `{size, align}` in bytes. -/
structure Layout where
  size : Nat
  align : Nat
deriving DecidableEq, Repr

/-- `Layout::size_align`. -/
def Layout.size_align (size align : Nat) : Layout := ⟨size, align⟩

/-- Interned reference to a `Layout` (Rust `&'cx Layout`). -/
structure LayoutRef where
  idx : Nat
  val : Layout
deriving DecidableEq, Repr

/-- Pairing of a type and its interned layout. -/
structure TyLayout where
  ty : Ty
  layout : LayoutRef
deriving DecidableEq, Repr

/-- Function: name, definition span, return type, ordered basic blocks;
block 0 is the entry. -/
structure Func where
  name : Symbol
  def_span : Span
  ret_ty : Ty
  bbs : List BasicBlock
deriving Repr

/-- The recoverable error value (`analysis::Error`, modelled from the
spec: a structured `{message, span}` diagnostic). -/
structure Error where
  message : String
  span : Span
deriving DecidableEq, Repr

/-- Outcome of a lowering step: success, a recoverable `Err` carrying an
`Error`, or an abrupt abort of the pass (Rust `todo!`/`panic!`/failed
`unwrap`, with its message). -/
inductive LRes (α : Type) where
  | ok (a : α)
  | err (e : Error)
  | abort (msg : String)
deriving Repr

/-- Sequencing that propagates `err` and `abort` (Rust `?`). -/
def LRes.bind {α β : Type} : LRes α → (α → LRes β) → LRes β
  | .ok a, f => f a
  | .err e, _ => .err e
  | .abort m, _ => .abort m

@[simp] theorem LRes.bind_ok {α β : Type} (a : α) (f : α → LRes β) :
    LRes.bind (.ok a) f = f a := rfl

@[simp] theorem LRes.bind_err {α β : Type} (e : Error) (f : α → LRes β) :
    LRes.bind (.err e) f = .err e := rfl

@[simp] theorem LRes.bind_abort {α β : Type} (m : String) (f : α → LRes β) :
    LRes.bind (.abort m) f = .abort m := rfl

/-- Interner state: the two hash sets of `LoweringCx` together with the
arena they point into, as lists in allocation order. -/
structure LoweringCx where
  tys : List TyKind
  layouts : List Layout
deriving DecidableEq, Repr

/-- `LoweringCx::intern_ty`: return the existing canonical instance if a
structurally-equal one exists, else allocate and register a new one. -/
def LoweringCx.intern_ty (cx : LoweringCx) (kind : TyKind) : LoweringCx × Ty :=
  match cx.tys.findIdx? (· = kind) with
  | some i => (cx, ⟨i, kind⟩)
  | none => ({ cx with tys := cx.tys ++ [kind] }, ⟨cx.tys.length, kind⟩)

/-- `LoweringCx::intern_layout`: same hash-consing discipline. -/
def LoweringCx.intern_layout (cx : LoweringCx) (layout : Layout) :
    LoweringCx × LayoutRef :=
  match cx.layouts.findIdx? (· = layout) with
  | some i => (cx, ⟨i, layout⟩)
  | none => ({ cx with layouts := cx.layouts ++ [layout] }, ⟨cx.layouts.length, layout⟩)

/-- `LoweringCx::lower_ty`: map the type specifier to a `TyKind` and
intern it. -/
def LoweringCx.lower_ty (cx : LoweringCx) (ty : TypeSpecifier) : LoweringCx × Ty :=
  let kind : TyKind :=
    match ty with
    | .Void => .Void
    | .Char => .Char
    | .SChar => .SChar
    | .UChar => .UChar
    | .Integer int => .Integer int
    | .Float => .Float
    | .Double => .Double
    | .LongDouble => .LongDouble
    | .Bool => .Bool
  cx.intern_ty kind

/-- The `let layout = match *ty { .. }` of `LoweringCx::layout_of`:
fixed ABI size/align per type kind; aggregates are `todo!`. -/
def sizeAlignFor (k : TyKind) : LRes Layout :=
  match k with
  | .Void => .ok (Layout.size_align 0 1)
  | .Char => .ok (Layout.size_align 1 1)
  | .SChar => .ok (Layout.size_align 1 1)
  | .UChar => .ok (Layout.size_align 1 1)
  | .Integer int =>
    match int.kind with
    | .Short => .ok (Layout.size_align 2 2)
    | .Int => .ok (Layout.size_align 4 4)
    | .Long => .ok (Layout.size_align 8 8)
    | .LongLong => .ok (Layout.size_align 8 8)
  | .Float => .ok (Layout.size_align 4 4)
  | .Double => .ok (Layout.size_align 8 8)
  | .LongDouble => .ok (Layout.size_align 8 8)
  | .Bool => .ok (Layout.size_align 1 1)
  | .Struct _ => .abort "layout_of struct"
  | .Union _ => .abort "layout_of union"
  | .Enum _ => .abort "layout_of enum"
  | .Ptr _ => .ok (Layout.size_align 8 8)

/-- `LoweringCx::layout_of`: compute the fixed layout of the type's kind
and intern it. -/
def LoweringCx.layout_of (cx : LoweringCx) (ty : Ty) : LRes (LoweringCx × TyLayout) :=
  LRes.bind (sizeAlignFor ty.kind) fun layout =>
  .ok ((cx.intern_layout layout).1, ⟨ty, (cx.intern_layout layout).2⟩)

/-! ## Control-flow-graph builder

Modelled from the spec: `analysis/src/lower/builder.rs` is not among the
provided sources; `FuncBuilder` and its operations follow spec §4.3
(`new` creates block 0 and marks it current; `new_block` appends an
empty, unterminated block and returns its handle without changing the
current block; `alloca`/`store`/`binary`/`call` emit statements into the
current block, producing fresh monotonically allocated registers;
terminators of the current or of any block can be patched; `finish`
asserts every block is terminated). -/

/-- Replace the element at index `i` (identity when out of range). -/
def modifyIdx {α : Type} : List α → Nat → (α → α) → List α
  | [], _, _ => []
  | x :: xs, 0, f => f x :: xs
  | x :: xs, n + 1, f => x :: modifyIdx xs n f

structure FuncBuilder where
  name : Symbol
  def_span : Span
  ret_ty : Ty
  bbs : List BasicBlock
  current_bb : Nat
  next_reg : Nat
deriving Repr

namespace FuncBuilder

/-- Modelled from the spec: `FuncBuilder::new` creates block 0 ("entry")
and marks it current. -/
def new (name : Symbol) (def_span : Span) (ret_ty : Ty) : FuncBuilder :=
  { name := name, def_span := def_span, ret_ty := ret_ty,
    bbs := [⟨[], .Unset⟩], current_bb := 0, next_reg := 0 }

/-- Append a statement to the current block. -/
def push (b : FuncBuilder) (s : Statement) : FuncBuilder :=
  { b with
    bbs := modifyIdx b.bbs b.current_bb
      (fun bb => { bb with statements := bb.statements ++ [s] }) }

/-- Modelled from the spec: `FuncBuilder::new_block` appends a new,
empty, unterminated block and returns its handle; "current" is
unchanged. -/
def new_block (b : FuncBuilder) : FuncBuilder × Nat :=
  ({ b with bbs := b.bbs ++ [⟨[], .Unset⟩] }, b.bbs.length)

/-- Modelled from the spec: `FuncBuilder::alloca` emits an Alloca in the
current block and returns the fresh pointer register.  The debug name is
not part of the IR statement. -/
def alloca (b : FuncBuilder) (layout : Layout) (_debug_name : Option Symbol)
    (span : Span) : FuncBuilder × Register :=
  let r := b.next_reg
  let b := b.push ⟨.Alloca r layout.size layout.align, span⟩
  ({ b with next_reg := b.next_reg + 1 }, r)

/-- Modelled from the spec: `FuncBuilder::store` emits a Store in the
current block. -/
def store (b : FuncBuilder) (ptr : Register) (value : Operand) (layout : Layout)
    (span : Span) : FuncBuilder :=
  b.push ⟨.Store (.Reg ptr) value layout.size layout.align, span⟩

/-- Modelled from the spec: `FuncBuilder::binary` emits a BinOp with a
fresh result register. -/
def binary (b : FuncBuilder) (kind : BinKind) (lhs rhs : Operand) (span : Span)
    (_result_layout : TyLayout) : FuncBuilder × Register :=
  let r := b.next_reg
  let b := b.push ⟨.BinOp kind lhs rhs r, span⟩
  ({ b with next_reg := b.next_reg + 1 }, r)

/-- Modelled from the spec: `FuncBuilder::call` emits a Call with a
fresh result register. -/
def call (b : FuncBuilder) (_result_layout : TyLayout) (func : Operand)
    (args : List Operand) (span : Span) : FuncBuilder × Register :=
  let r := b.next_reg
  let b := b.push ⟨.Call r func args, span⟩
  ({ b with next_reg := b.next_reg + 1 }, r)

/-- Set the terminator of block `i` (`bb_mut(i).term = t`, and
`cur_bb_mut().term = t` when `i` is the current block). -/
def set_term (b : FuncBuilder) (i : Nat) (t : Branch) : FuncBuilder :=
  { b with bbs := modifyIdx b.bbs i (fun bb => { bb with term := t }) }

/-- Modelled from the spec: `FuncBuilder::finish` consumes the builder;
every block must already carry a terminator, an unterminated block is a
construction bug caught by an assertion (`none` here). -/
def finish (b : FuncBuilder) : Option Func :=
  if b.bbs.all (fun bb => bb.term != .Unset) then
    some ⟨b.name, b.def_span, b.ret_ty, b.bbs⟩
  else
    none

end FuncBuilder

/-! ## Per-function lowering (`FnLoweringCtxt` in `lower.rs`) -/

/-- Declared-variable record. -/
structure VariableInfo where
  def_span : Span
  tyl : TyLayout
  ptr_to : Register
  decl_attr : DeclAttr
deriving DecidableEq, Repr

/-- One scope: mapping from name to `VariableInfo`, modelled as an
association list whose lookup takes the most recent insertion
(`FxHashMap` lookup semantics with `insert` as cons). -/
abbrev Scope := List (Symbol × VariableInfo)

/-- Lookup in one scope (`HashMap::get`). -/
def scopeGet (s : Scope) (x : Symbol) : Option VariableInfo :=
  (s.find? (fun p => p.1 = x)).map (·.2)

/-- Per-function lowering state: scope stack (innermost last), builder,
and the shared interner context (`RefCell` mutation modelled by state
passing). -/
structure FnLoweringCtxt where
  scopes : List Scope
  build : FuncBuilder
  lcx : LoweringCx
deriving Repr

/-- `FnLoweringCtxt::resolve_ident`: search the scope stack innermost
(last) to outermost (first) for the name. -/
def FnLoweringCtxt.resolve_ident (cx : FnLoweringCtxt) (ident : Symbol) :
    Option VariableInfo :=
  cx.scopes.reverse.findSome? (fun s => scopeGet s ident)

/-- Insert into the innermost (last) scope
(`scopes.last_mut().unwrap().insert(..)`); `none` models the `unwrap`
panic on an empty stack. -/
def insertLastScope : List Scope → Symbol → VariableInfo → Option (List Scope)
  | [], _, _ => none
  | [s], x, v => some [(x, v) :: s]
  | s :: s' :: rest, x, v =>
    (insertLastScope (s' :: rest) x v).map (fun r => s :: r)

/-- Wrapping cast of a `u128` literal to the `i128` of `ConstValue::Int`
(`*i as _` in `lower_expr`). -/
def u128_as_i128 (i : Nat) : Int :=
  if i < 2 ^ 127 then (i : Int) else (i : Int) - 2 ^ 128

mutual
/-- `FnLoweringCtxt::lower_expr`: lower an expression, emitting
statements into the current block and returning the resulting operand.
Atoms other than integer/char literals and all unary/member/inc-dec
forms are `todo!` aborts. -/
def FnLoweringCtxt.lower_expr (cx : FnLoweringCtxt) (e : Expr) (span : Span) :
    LRes (FnLoweringCtxt × Operand) :=
  match e with
  | .Atom (.Char c) => .ok (cx, .Const (.Int (c : Int)))
  | .Atom (.Int i) => .ok (cx, .Const (.Int (u128_as_i128 i)))
  | .Atom .Float => .abort "no floats"
  | .Atom (.Ident _) => .abort "no idents"
  | .Atom (.String _) => .abort "no string literals"
  | .Unary _ _ => .abort "no unaries"
  | .Binary op lhs rhs =>
    LRes.bind (cx.lower_expr lhs.1 lhs.2) fun (cx, lhsOp) =>
    LRes.bind (cx.lower_expr rhs.1 rhs.2) fun (cx, rhsOp) =>
    LRes.bind
      (match op with
       | .Arith .Mul => LRes.ok BinKind.Mul
       | .Arith .Div => LRes.ok BinKind.Div
       | .Arith .Mod => LRes.ok BinKind.Mod
       | .Arith .Add => LRes.ok BinKind.Add
       | .Arith .Sub => LRes.ok BinKind.Sub
       | .Arith .Shl => LRes.abort "shl"
       | .Arith .Shr => LRes.abort "shr"
       | .Arith .BitAnd => LRes.abort "&"
       | .Arith .BitXor => LRes.abort "^"
       | .Arith .BitOr => LRes.abort "|"
       | .LogicalAnd => LRes.abort "no logical or"
       | .LogicalOr => LRes.abort "no logical and"
       | .Comparison .Lt => LRes.ok BinKind.Lt
       | .Comparison .Gt => LRes.ok BinKind.Gt
       | .Comparison .LtEq => LRes.ok BinKind.Leq
       | .Comparison .GtEq => LRes.ok BinKind.Geq
       | .Comparison .Eq => LRes.ok BinKind.Eq
       | .Comparison .Neq => LRes.ok BinKind.Neq
       | .Comma => LRes.abort "no comma"
       | .Index => LRes.abort "no index"
       | .Assign _ => LRes.abort "no assign") fun kind =>
    LRes.bind ((cx.lcx.intern_ty .Void).1.layout_of (cx.lcx.intern_ty .Void).2)
      fun (lcx, tyl) =>
    .ok ({ cx with
            lcx := lcx,
            build := (cx.build.binary kind lhsOp rhsOp span tyl).1 },
         .Reg (cx.build.binary kind lhsOp rhsOp span tyl).2)
  | .Postfix lhs op =>
    LRes.bind (cx.lower_expr lhs.1 lhs.2) fun (cx, lhsOp) =>
    match op with
    | .Call args =>
      LRes.bind (cx.lower_exprs args) fun (cx, argOps) =>
      LRes.bind ((cx.lcx.intern_ty .Void).1.layout_of (cx.lcx.intern_ty .Void).2)
        fun (lcx, tyl) =>
      .ok ({ cx with
              lcx := lcx,
              build := (cx.build.call tyl lhsOp argOps span).1 },
           .Reg (cx.build.call tyl lhsOp argOps span).2)
    | .Member _ => .abort "member expr"
    | .ArrowMember _ => .abort "arrow member expr"
    | .Increment => .abort "gotta have lvalues"
    | .Decrement => .abort "not yet implemented"

/-- Lower call arguments left to right, short-circuiting on failure
(the `map`/`collect::<Result<_, _>>` in the `Call` arm). -/
def FnLoweringCtxt.lower_exprs (cx : FnLoweringCtxt) (args : List (Expr × Span)) :
    LRes (FnLoweringCtxt × List Operand) :=
  match args with
  | [] => .ok (cx, [])
  | (a, sp) :: rest =>
    LRes.bind (cx.lower_expr a sp) fun (cx, op) =>
    LRes.bind (cx.lower_exprs rest) fun (cx, ops) =>
    .ok (cx, op :: ops)
end

/-- The per-declarator loop of the `Stmt::Decl` arm of `lower_stmt`:
compute the layout, emit the Alloca, record the `VariableInfo` in the
innermost scope, and lower + Store the initializer when present. -/
def FnLoweringCtxt.lower_init_decls (cx : FnLoweringCtxt) (ty : Ty)
    (decl_attr : DeclAttr) (stmt_span : Span) :
    List (Spanned InitDecl) → LRes FnLoweringCtxt
  | [] => .ok cx
  | (var, def_span) :: rest =>
    LRes.bind (cx.lcx.layout_of ty) fun (lcx, tyl) =>
    let name := var.declarator.decl.name.1
    let ptr_to := (cx.build.alloca tyl.layout.val (some name) stmt_span).2
    let cx := { cx with
                 lcx := lcx,
                 build := (cx.build.alloca tyl.layout.val (some name) stmt_span).1 }
    let vi : VariableInfo :=
      { def_span := def_span, tyl := tyl, ptr_to := ptr_to, decl_attr := decl_attr }
    LRes.bind
      (match insertLastScope cx.scopes name vi with
       | none => LRes.abort "called unwrap on an empty scope stack"
       | some scopes => LRes.ok { cx with scopes := scopes }) fun cx =>
    LRes.bind
      (match var.init with
       | none => LRes.ok cx
       | some (init, init_span) =>
         LRes.bind (cx.lower_expr init init_span) fun (cx, initOp) =>
         LRes.ok { cx with
           build := cx.build.store ptr_to initOp tyl.layout.val init_span }) fun cx =>
    cx.lower_init_decls ty decl_attr stmt_span rest

mutual
/-- `FnLoweringCtxt::lower_stmt`: declarations, if/else and expression
statements are lowered; every other statement kind is a `todo!` abort;
the plain-assignment expression statement resolves its bare-identifier
target, returning the recoverable unresolved-identifier `Error` when the
name is bound in no active scope. -/
def FnLoweringCtxt.lower_stmt (cx : FnLoweringCtxt) (stmt : Stmt)
    (stmt_span : Span) : LRes FnLoweringCtxt :=
  match stmt with
  | .Decl d =>
    LRes.bind
      (match d.uwnrap_normal with
       | none => LRes.abort "Expected normal declaration, found static assert declaration"
       | some decl => LRes.ok decl) fun decl =>
    FnLoweringCtxt.lower_init_decls
      { cx with lcx := (cx.lcx.lower_ty decl.decl_spec.ty).1 }
      (cx.lcx.lower_ty decl.decl_spec.ty).2
      decl.decl_spec.attrs stmt_span decl.init_declarators
  | .Labeled _ _ => .abort "labels are not implemented"
  | .Compound _ => .abort "blocks are not implemented"
  | .If cond then_body otherwise =>
    LRes.bind (cx.lower_expr cond.1 cond.2) fun (cx, condOp) =>
    let pred := cx.build.current_bb
    let b := (cx.build.new_block).1
    let then_ := (cx.build.new_block).2
    match otherwise with
    | some oth =>
      let els := (b.new_block).2
      let cont := ((b.new_block).1.new_block).2
      let cx := { cx with
                   build := { ((b.new_block).1.new_block).1 with current_bb := then_ } }
      LRes.bind (cx.lower_body then_body) fun cx =>
      let cx := { cx with
        build := cx.build.set_term cx.build.current_bb (.Goto cont) }
      let cx := { cx with build := { cx.build with current_bb := els } }
      LRes.bind (cx.lower_body oth) fun cx =>
      let cx := { cx with
        build := cx.build.set_term cx.build.current_bb (.Goto cont) }
      let cx := { cx with
        build := cx.build.set_term pred (.Switch condOp then_ els) }
      .ok { cx with build := { cx.build with current_bb := cont } }
    | none =>
      let cont := (b.new_block).2
      let cx := { cx with build := { (b.new_block).1 with current_bb := then_ } }
      LRes.bind (cx.lower_body then_body) fun cx =>
      let cx := { cx with
        build := cx.build.set_term cx.build.current_bb (.Goto cont) }
      let cx := { cx with
        build := cx.build.set_term pred (.Switch condOp then_ cont) }
      .ok { cx with build := { cx.build with current_bb := cont } }
  | .Switch => .abort "not yet implemented"
  | .While _ _ => .abort "not yet implemented"
  | .For _ _ _ _ => .abort "not yet implemented"
  | .Goto _ => .abort "not yet implemented"
  | .Continue => .abort "not yet implemented"
  | .Break => .abort "not yet implemented"
  | .Return _ => .abort "not yet implemented"
  | .Expr (.Binary (.Assign assign) lhs rhs) =>
    if assign.isSome then .abort "assign operation"
    else
      LRes.bind (cx.lower_expr rhs.1 rhs.2) fun (cx, rhsOp) =>
      match lhs with
      | (.Atom (.Ident (ident, ident_span)), _) =>
        match cx.resolve_ident ident with
        | none => .err ⟨"cannot find variable " ++ ident, ident_span⟩
        | some var =>
          .ok { cx with
            build := cx.build.store var.ptr_to rhsOp var.tyl.layout.val stmt_span }
      | _ => .abort "complex assignments"
  | .Expr e =>
    LRes.bind (cx.lower_expr e stmt_span) fun (cx, _) => .ok cx

/-- `FnLoweringCtxt::lower_body`: lower the statements in order,
stopping at the first failure. -/
def FnLoweringCtxt.lower_body (cx : FnLoweringCtxt) (body : List (Stmt × Span)) :
    LRes FnLoweringCtxt :=
  match body with
  | [] => .ok cx
  | (stmt, sp) :: rest =>
    LRes.bind (cx.lower_stmt stmt sp) fun cx => cx.lower_body rest
end

/-- The initial `FnLoweringCtxt` constructed by the free function
`lower_body` in `lower.rs`: a scope stack holding a single empty scope,
and a fresh builder. -/
def initFnCtxt (lcx : LoweringCx) (name : Symbol) (def_span : Span)
    (ret_ty : Ty) : FnLoweringCtxt :=
  { scopes := [[]], build := FuncBuilder.new name def_span ret_ty, lcx := lcx }

/-- The free function `lower_body` in `lower.rs`: build the initial
context, lower the statement list, and finish the builder.  The interner
context is threaded through (Rust mutates it through `RefCell`). -/
def lower_body (lcx : LoweringCx) (body : List (Stmt × Span)) (def_span : Span)
    (name : Symbol) (ret_ty : Ty) : LRes (LoweringCx × Func) :=
  let cx : FnLoweringCtxt := initFnCtxt lcx name def_span ret_ty
  LRes.bind (cx.lower_body body) fun cx =>
  match cx.build.finish with
  | some f => .ok (cx.lcx, f)
  | none => .abort "finish: unterminated block"

/-- The loop over external declarations in `lower_translation_unit`:
plain declarations are a `todo!` abort; a function definition unwraps
its declaration, lowers the return type, and lowers its body (its first
init-declarator's span and name; indexing an empty list is a panic).
The produced `Func` is dropped. -/
def ltuLoop (lcx : LoweringCx) : TranslationUnit → LRes LoweringCx
  | [] => .ok lcx
  | (decl, _) :: rest =>
    match decl with
    | .Decl _ => .abort "decl is unsupported"
    | .FunctionDef fdef =>
      LRes.bind
        (match fdef.decl.uwnrap_normal with
         | none => LRes.abort "Expected normal declaration, found static assert declaration"
         | some decl => LRes.ok decl) fun decl =>
      let lcx1 := (lcx.lower_ty decl.decl_spec.ty).1
      let ret_ty := (lcx.lower_ty decl.decl_spec.ty).2
      LRes.bind
        (match decl.init_declarators with
         | [] => LRes.abort "index out of bounds"
         | (first, fsp) :: _ =>
           lower_body lcx1 fdef.body fsp first.declarator.decl.name.1 ret_ty)
        fun (lcx, _) =>
      ltuLoop lcx rest

/-- `lower_translation_unit`: process every external declaration, then
hit the trailing `todo!("building is not really")`. -/
def lower_translation_unit (ast : TranslationUnit) : LRes Unit :=
  LRes.bind (ltuLoop ⟨[], []⟩ ast) fun _ =>
  .abort "building is not really"

/-! ## Visitor engine (`src/analysis/src/ir/visit.rs`)

The default (un-overridden) traversal of the `Visitor` trait is embedded
as total trace functions: each `visit_*` call is recorded as an event,
and each `super_*` body is the corresponding trace concatenation, in the
exact call order of `visit.rs`.  `visit_reg`/`visit_const` have empty
default bodies, so their trace is just their own event. -/

inductive VisitEvent where
  | bb (b : BasicBlock)
  | stmt (s : Statement)
  | operand (op : Operand)
  | reg (r : Register)
  | const (c : ConstValue)
deriving DecidableEq, Repr

/-- Mark the events recording a `visit_bb` call. -/
def VisitEvent.isBlockEv : VisitEvent → Bool
  | .bb _ => true
  | _ => false

/-- Mark the events recording a `visit_statement` call. -/
def VisitEvent.isStmtEv : VisitEvent → Bool
  | .stmt _ => true
  | _ => false

/-- Mark the events recording a `visit_operand` call. -/
def VisitEvent.isOperandEv : VisitEvent → Bool
  | .operand _ => true
  | _ => false

/-- Trace of `visit_reg` (empty default body). -/
def visitRegTrace (r : Register) : List VisitEvent := [.reg r]

/-- Trace of `visit_const` (empty default body). -/
def visitConstTrace (c : ConstValue) : List VisitEvent := [.const c]

/-- Trace of `super_operand`: dispatch to the register or constant leaf. -/
def superOperandTrace (op : Operand) : List VisitEvent :=
  match op with
  | .Reg r => visitRegTrace r
  | .Const c => visitConstTrace c

/-- Trace of `visit_operand` (default body calls `super_operand`). -/
def visitOperandTrace (op : Operand) : List VisitEvent :=
  .operand op :: superOperandTrace op

/-- Trace of `super_statement`: the operands of each statement kind in
the fixed role order of `visit.rs`. -/
def superStatementTrace (s : Statement) : List VisitEvent :=
  match s.kind with
  | .Alloca result _ _ => visitRegTrace result
  | .Store ptr value _ _ => visitOperandTrace ptr ++ visitOperandTrace value
  | .Load result ptr _ _ => visitRegTrace result ++ visitOperandTrace ptr
  | .BinOp _ lhs rhs result =>
    visitRegTrace result ++ visitOperandTrace lhs ++ visitOperandTrace rhs
  | .UnaryOperation rhs _ result => visitRegTrace result ++ visitOperandTrace rhs
  | .PtrOffset result ptr amount =>
    visitRegTrace result ++ visitOperandTrace ptr ++ visitOperandTrace amount
  | .Call result func args =>
    visitRegTrace result ++ visitOperandTrace func ++ args.flatMap visitOperandTrace

/-- Trace of `visit_statement` (default body calls `super_statement`). -/
def visitStatementTrace (s : Statement) : List VisitEvent :=
  .stmt s :: superStatementTrace s

/-- Trace of `super_bb`: statements in storage order. -/
def superBbTrace (bb : BasicBlock) : List VisitEvent :=
  bb.statements.flatMap visitStatementTrace

/-- Trace of `visit_bb` (default body calls `super_bb`). -/
def visitBbTrace (bb : BasicBlock) : List VisitEvent :=
  .bb bb :: superBbTrace bb

/-- Trace of `super_func`: blocks in storage order. -/
def superFuncTrace (f : Func) : List VisitEvent :=
  f.bbs.flatMap visitBbTrace

/-! ## Concrete example inputs -/

/-- A span for examples. -/
def spn (n : Nat) : Span := ⟨n, n + 1⟩

/-- The `int` type specifier. -/
def intTS : TypeSpecifier := .Integer ⟨.Signed, .Int⟩

/-- The declaration statement `int <name> = <init>;` (no initializer when
`init` is `none`). -/
def intDecl (name : Symbol) (init : Option (Expr × Span)) : Stmt :=
  Stmt.Decl (.Normal
    { decl_spec := { ty := intTS, attrs := 0 },
      init_declarators :=
        [({ declarator := { decl := .Ident (name, spn 1), pointer := false },
            init := init }, spn 2)] })

/-- The identifier expression `<x>`, spanned. -/
def identE (x : Symbol) (n : Nat) : Expr × Span := (.Atom (.Ident (x, spn n)), spn n)

/-- The integer-literal expression `<i>`, spanned. -/
def intE (i : Nat) (n : Nat) : Expr × Span := (.Atom (.Int i), spn n)

/-- The §8 end-to-end body
`int x = 2; int y = 3; if (x < y) { x = x + y; } int z = x;`. -/
def exBodyC1 : List (Stmt × Span) :=
  [ (intDecl "x" (some (intE 2 3)), spn 4),
    (intDecl "y" (some (intE 3 5)), spn 6),
    (.If (.Binary (.Comparison .Lt) (identE "x" 7) (identE "y" 8), spn 9)
        [(.Expr (.Binary (.Assign none) (identE "x" 10)
            (.Binary (.Arith .Add) (identE "x" 11) (identE "y" 12), spn 13)), spn 14)]
        none, spn 15),
    (intDecl "z" (some (identE "x" 16)), spn 17) ]

/-- The supported prefix `int x = 2; int y = 3;` of the §8 body. -/
def exBodyC1Pre : List (Stmt × Span) := exBodyC1.take 2

/-- A fresh per-function lowering state over an empty interner. -/
def exSt0 : FnLoweringCtxt := initFnCtxt ⟨[], []⟩ "f" (spn 0) ⟨0, .Void⟩

/-- `if (1 < 2) { 1 + 2; } else { 7 - 8; } 5;`: an if/else whose
condition, branches and continuation statement all lie in the supported
subset. -/
def exIfElse : List (Stmt × Span) :=
  [ (.If (.Binary (.Comparison .Lt) (intE 1 1) (intE 2 2), spn 3)
      [(.Expr (.Binary (.Arith .Add) (intE 1 4) (intE 2 5)), spn 6)]
      (some [(.Expr (.Binary (.Arith .Sub) (intE 7 7) (intE 8 8)), spn 9)]), spn 10),
    (.Expr (.Atom (.Int 5)), spn 11) ]

/-- `if (1 < 2) { 1 + 2; } 5;`: the same shape without an else branch. -/
def exIfNoElse : List (Stmt × Span) :=
  [ (.If (.Binary (.Comparison .Lt) (intE 1 1) (intE 2 2), spn 3)
      [(.Expr (.Binary (.Arith .Add) (intE 1 4) (intE 2 5)), spn 6)]
      none, spn 10),
    (.Expr (.Atom (.Int 5)), spn 11) ]

/-- The condition `1 < 2` of the if/else example. -/
def exIfCond : Expr := .Binary (.Comparison .Lt) (intE 1 1) (intE 2 2)

/-- The then-branch `{ 1 + 2; }` of the if/else example. -/
def exIfThen : List (Stmt × Span) :=
  [(.Expr (.Binary (.Arith .Add) (intE 1 4) (intE 2 5)), spn 6)]

/-- The else-branch `{ 7 - 8; }` of the if/else example. -/
def exIfEls : List (Stmt × Span) :=
  [(.Expr (.Binary (.Arith .Sub) (intE 7 7) (intE 8 8)), spn 9)]

/-- The lowering state after the full if/else example body. -/
def exIfElseOut : FnLoweringCtxt :=
  ⟨[[]],
   ⟨"f", spn 0, ⟨0, .Void⟩,
    [⟨[⟨.BinOp .Lt (.Const (.Int 1)) (.Const (.Int 2)) 0, spn 3⟩],
       .Switch (.Reg 0) 1 2⟩,
     ⟨[⟨.BinOp .Add (.Const (.Int 1)) (.Const (.Int 2)) 1, spn 6⟩], .Goto 3⟩,
     ⟨[⟨.BinOp .Sub (.Const (.Int 7)) (.Const (.Int 8)) 2, spn 9⟩], .Goto 3⟩,
     ⟨[], .Unset⟩],
    3, 3⟩,
   ⟨[.Void], [⟨0, 1⟩]⟩⟩

/-- The call `f(1, 2)` with identifier callee. -/
def exCallIdent : Expr :=
  .Postfix (.Atom (.Ident ("f", spn 1)), spn 1)
    (.Call [(.Atom (.Int 1), spn 2), (.Atom (.Int 2), spn 3)])

/-- The call `(1 * 2)(3 + 4, 5 - 6)`: a call whose callee and arguments
are all lowerable and all emit statements, exposing evaluation order. -/
def exCallComplex : Expr :=
  .Postfix (.Binary (.Arith .Mul) (intE 1 1) (intE 2 2), spn 3)
    (.Call [(.Binary (.Arith .Add) (intE 3 4) (intE 4 5), spn 6),
            (.Binary (.Arith .Sub) (intE 5 7) (intE 6 8), spn 9)])

/-- The translation unit `int main() {}`. -/
def exUnit : TranslationUnit :=
  [(.FunctionDef
    { decl := .Normal
        { decl_spec := { ty := intTS, attrs := 0 },
          init_declarators :=
            [({ declarator := { decl := .WithParams ("main", spn 0) 0,
                                pointer := false },
                init := none }, spn 0)] },
      body := [] }, spn 0)]

/-- Statements that fork control flow create no new blocks; declarations
and expression statements are the straight-line subset. -/
def straightLine : Stmt → Bool
  | .Decl _ => true
  | .Expr _ => true
  | _ => false

/-- The (size, align) pair that `layout_of` reports for a type, when it
succeeds. -/
def layoutOfSizeAlign (cx : LoweringCx) (t : Ty) : Option (Nat × Nat) :=
  match cx.layout_of t with
  | .ok (_, tyl) => some (tyl.layout.val.size, tyl.layout.val.align)
  | _ => none

/-- The terminator of block `i` of a builder (`Unset` out of range). -/
def bbTerm (b : FuncBuilder) (i : Nat) : Branch :=
  (b.bbs.getD i ⟨[], .Unset⟩).term

/-- The statements of block `i` of a builder (empty out of range). -/
def bbStmts (b : FuncBuilder) (i : Nat) : List Statement :=
  (b.bbs.getD i ⟨[], .Unset⟩).statements

/-- `b'` extends `b` by appending statements to the current block only:
same blocks, terminators and cursor otherwise.  This is the builder
footprint of straight-line lowering. -/
def extendsCur (b b' : FuncBuilder) : Prop :=
  ∃ (new : List Statement) (nr : Nat),
    b' = { b with
            bbs := modifyIdx b.bbs b.current_bb
              (fun bb => { bb with statements := bb.statements ++ new }),
            next_reg := nr }

/-! # Theorems

## Result and builder lemmas -/

theorem LRes.bind_eq_ok {α β : Type} {r : LRes α} {f : α → LRes β} {b : β} :
    r.bind f = .ok b ↔ ∃ a, r = .ok a ∧ f a = .ok b := by
  cases r <;> simp [LRes.bind]

theorem LRes.bind_eq_err {α β : Type} {r : LRes α} {f : α → LRes β} {e : Error} :
    r.bind f = .err e ↔ r = .err e ∨ ∃ a, r = .ok a ∧ f a = .err e := by
  cases r <;> simp [LRes.bind]

theorem length_modifyIdx {α : Type} (l : List α) (i : Nat) (f : α → α) :
    (modifyIdx l i f).length = l.length := by
  induction l generalizing i with
  | nil => rfl
  | cons x xs ih => cases i <;> simp [modifyIdx, ih]

theorem getD_modifyIdx {α : Type} (l : List α) (i j : Nat) (f : α → α) (d : α) :
    (modifyIdx l i f).getD j d
      = if i = j ∧ j < l.length then f (l.getD j d) else l.getD j d := by
  induction l generalizing i j with
  | nil => simp [modifyIdx]
  | cons x xs ih =>
    cases i with
    | zero =>
      cases j with
      | zero => simp [modifyIdx]
      | succ j => simp [modifyIdx]
    | succ i =>
      cases j with
      | zero => simp [modifyIdx]
      | succ j =>
        simp only [modifyIdx, List.getD_cons_succ, List.length_cons]
        rw [ih]
        by_cases h1 : i = j <;> by_cases h2 : j < xs.length <;>
          simp [h1, h2, Nat.succ_lt_succ_iff]

theorem modifyIdx_modifyIdx {α : Type} (l : List α) (i : Nat) (f g : α → α) :
    modifyIdx (modifyIdx l i f) i g = modifyIdx l i (fun x => g (f x)) := by
  induction l generalizing i with
  | nil => rfl
  | cons x xs ih => cases i <;> simp [modifyIdx, ih]

theorem modifyIdx_id {α : Type} (l : List α) (i : Nat) :
    modifyIdx l i (fun x => x) = l := by
  induction l generalizing i with
  | nil => rfl
  | cons x xs ih => cases i <;> simp [modifyIdx, ih]

theorem extendsCur_refl (b : FuncBuilder) : extendsCur b b := by
  refine ⟨[], b.next_reg, ?_⟩
  have h : (fun bb : BasicBlock => { bb with statements := bb.statements ++ [] })
      = fun bb => bb := by
    funext bb
    simp
  rw [h, modifyIdx_id]

theorem extendsCur_trans {a b c : FuncBuilder}
    (h₁ : extendsCur a b) (h₂ : extendsCur b c) : extendsCur a c := by
  obtain ⟨n₁, r₁, rfl⟩ := h₁
  obtain ⟨n₂, r₂, rfl⟩ := h₂
  refine ⟨n₁ ++ n₂, r₂, ?_⟩
  simp only [modifyIdx_modifyIdx]
  congr 1
  refine congrArg (modifyIdx a.bbs a.current_bb) (funext fun bb => ?_)
  simp

theorem extendsCur_push (b : FuncBuilder) (s : Statement) :
    extendsCur b (b.push s) :=
  ⟨[s], b.next_reg, rfl⟩

theorem extendsCur_alloca (b : FuncBuilder) (l : Layout) (n : Option Symbol)
    (sp : Span) : extendsCur b (b.alloca l n sp).1 :=
  ⟨[⟨.Alloca b.next_reg l.size l.align, sp⟩], b.next_reg + 1, rfl⟩

theorem extendsCur_store (b : FuncBuilder) (p : Register) (v : Operand)
    (l : Layout) (sp : Span) : extendsCur b (b.store p v l sp) :=
  ⟨[⟨.Store (.Reg p) v l.size l.align, sp⟩], b.next_reg, rfl⟩

theorem extendsCur_binary (b : FuncBuilder) (k : BinKind) (l r : Operand)
    (sp : Span) (tyl : TyLayout) : extendsCur b (b.binary k l r sp tyl).1 :=
  ⟨[⟨.BinOp k l r b.next_reg, sp⟩], b.next_reg + 1, rfl⟩

theorem extendsCur_call (b : FuncBuilder) (tyl : TyLayout) (f : Operand)
    (args : List Operand) (sp : Span) : extendsCur b (b.call tyl f args sp).1 :=
  ⟨[⟨.Call b.next_reg f args, sp⟩], b.next_reg + 1, rfl⟩

theorem extendsCur_current (h : extendsCur b b') :
    b'.current_bb = b.current_bb := by
  obtain ⟨n, r, rfl⟩ := h
  rfl

theorem extendsCur_length (h : extendsCur b b') :
    b'.bbs.length = b.bbs.length := by
  obtain ⟨n, r, rfl⟩ := h
  exact length_modifyIdx ..

theorem extendsCur_term (h : extendsCur b b') (i : Nat) :
    bbTerm b' i = bbTerm b i := by
  obtain ⟨n, r, rfl⟩ := h
  unfold bbTerm
  show ((modifyIdx b.bbs b.current_bb _).getD i _).term = _
  rw [getD_modifyIdx]
  split <;> rfl

theorem extendsCur_other (h : extendsCur b b') (i : Nat)
    (hi : i ≠ b.current_bb) : bbStmts b' i = bbStmts b i := by
  obtain ⟨n, r, rfl⟩ := h
  unfold bbStmts
  show ((modifyIdx b.bbs b.current_bb _).getD i _).statements = _
  rw [getD_modifyIdx]
  rw [if_neg]
  rintro ⟨h₁, -⟩
  exact hi h₁.symm

theorem extendsCur_cur_stmts (h : extendsCur b b')
    (hlt : b.current_bb < b.bbs.length) :
    ∃ new, bbStmts b' b.current_bb = bbStmts b b.current_bb ++ new := by
  obtain ⟨n, r, rfl⟩ := h
  refine ⟨n, ?_⟩
  unfold bbStmts
  show ((modifyIdx b.bbs b.current_bb _).getD _ _).statements = _
  rw [getD_modifyIdx, if_pos ⟨rfl, hlt⟩]

theorem insertLastScope_length :
    ∀ (scopes scopes' : List Scope) (x : Symbol) (v : VariableInfo),
      insertLastScope scopes x v = some scopes' →
      scopes'.length = scopes.length := by
  intro scopes
  induction scopes with
  | nil => intro scopes' x v h; cases h
  | cons s rest ih =>
    intro scopes' x v h
    cases rest with
    | nil =>
      cases h
      rfl
    | cons s' rest' =>
      unfold insertLastScope at h
      rcases hrec : insertLastScope (s' :: rest') x v with _ | r <;>
        rw [hrec] at h <;> cases h
      simpa using ih r x v hrec


theorem sizeAlignFor_no_err (k : TyKind) (er : Error) :
    sizeAlignFor k ≠ .err er := by
  rcases k with _ | _ | _ | _ | ⟨sign, ik⟩ | _ | _ | _ | _ | _ | _ | _ | _ <;>
    first
    | (intro h; cases h)
    | (cases ik <;> intro h <;> cases h)

theorem layout_of_no_err (cx : LoweringCx) (t : Ty) (er : Error) :
    cx.layout_of t ≠ .err er := by
  unfold LoweringCx.layout_of
  rcases h : sizeAlignFor t.kind with l | e | m
  · simp
  · exact absurd h (sizeAlignFor_no_err _ _)
  · simp

theorem layout_of_void (cx : LoweringCx) (t : Ty) (h : t.kind = .Void) :
    cx.layout_of t
      = .ok ((cx.intern_layout ⟨0, 1⟩).1, ⟨t, (cx.intern_layout ⟨0, 1⟩).2⟩) := by
  unfold LoweringCx.layout_of
  rw [h]
  rfl

/-- Fuel-indexed frame property of expression lowering: `lower_expr` and
`lower_exprs` never return a recoverable `Err`, and on success they leave
the scope stack untouched and only append statements to the builder's
current block. -/
theorem lower_expr_frame_aux : ∀ (n : Nat),
    (∀ (e : Expr) (cx : FnLoweringCtxt) (sp : Span), sizeOf e ≤ n →
      (∀ er, cx.lower_expr e sp ≠ .err er)
      ∧ ∀ cx' op, cx.lower_expr e sp = .ok (cx', op) →
          cx'.scopes = cx.scopes ∧ extendsCur cx.build cx'.build)
    ∧ (∀ (args : List (Expr × Span)) (cx : FnLoweringCtxt), sizeOf args ≤ n →
      (∀ er, cx.lower_exprs args ≠ .err er)
      ∧ ∀ cx' ops, cx.lower_exprs args = .ok (cx', ops) →
          cx'.scopes = cx.scopes ∧ extendsCur cx.build cx'.build) := by
  intro n
  induction n using Nat.strong_induction_on with
  | _ n ih =>
  constructor
  · intro e cx sp hsize
    cases e with
    | Atom a =>
      constructor
      · intro er h
        cases a <;> simp [FnLoweringCtxt.lower_expr] at h
      · intro cx' op h
        cases a <;>
          simp only [FnLoweringCtxt.lower_expr, LRes.ok.injEq, Prod.mk.injEq] at h <;>
          first
            | exact LRes.noConfusion h
            | (obtain ⟨h₁, -⟩ := h
               subst h₁
               exact ⟨rfl, extendsCur_refl _⟩)
    | Unary op rhs =>
      refine ⟨fun er h => by simp [FnLoweringCtxt.lower_expr] at h,
              fun cx' op' h => by simp [FnLoweringCtxt.lower_expr] at h⟩
    | Binary op lhs rhs =>
      obtain ⟨le, lsp⟩ := lhs
      obtain ⟨re, rsp⟩ := rhs
      have hsl : sizeOf le < n := by simp at hsize; omega
      have hsr : sizeOf re < n := by simp at hsize; omega
      constructor
      · intro er h
        simp only [FnLoweringCtxt.lower_expr] at h
        rw [LRes.bind_eq_err] at h
        rcases h with h | ⟨⟨cx₁, lop⟩, h₁, h⟩
        · exact ((ih _ hsl).1 le cx lsp le_rfl).1 er h
        · try dsimp only at h
          rw [LRes.bind_eq_err] at h
          rcases h with h | ⟨⟨cx₂, rop⟩, h₂, h⟩
          · exact ((ih _ hsr).1 re cx₁ rsp le_rfl).1 er h
          · try dsimp only at h
            rw [LRes.bind_eq_err] at h
            rcases h with h | ⟨k, hk, h⟩
            · rcases op with k | _ | _ | k | _ | _ | a
              case Arith => cases k <;> simp at h
              case Comparison => cases k <;> simp at h
              all_goals simp at h
            · rw [LRes.bind_eq_err] at h
              rcases h with h | ⟨⟨lcx₂, tyl⟩, hl, h⟩
              · exact layout_of_no_err _ _ _ h
              · try dsimp only at h
                simp at h
      · intro cx' op' h
        simp only [FnLoweringCtxt.lower_expr] at h
        rw [LRes.bind_eq_ok] at h
        obtain ⟨⟨cx₁, lop⟩, h₁, h⟩ := h
        try dsimp only at h
        rw [LRes.bind_eq_ok] at h
        obtain ⟨⟨cx₂, rop⟩, h₂, h⟩ := h
        try dsimp only at h
        rw [LRes.bind_eq_ok] at h
        obtain ⟨k, hk, h⟩ := h
        rw [LRes.bind_eq_ok] at h
        obtain ⟨⟨lcx₂, tyl⟩, hl, h⟩ := h
        try dsimp only at h
        simp only [LRes.ok.injEq, Prod.mk.injEq] at h
        obtain ⟨hcx', -⟩ := h
        subst hcx'
        have s₁ := ((ih _ hsl).1 le cx lsp le_rfl).2 cx₁ lop h₁
        have s₂ := ((ih _ hsr).1 re cx₁ rsp le_rfl).2 cx₂ rop h₂
        exact ⟨s₂.1.trans s₁.1,
               extendsCur_trans (extendsCur_trans s₁.2 s₂.2) (extendsCur_binary cx₂.build k lop rop sp tyl)⟩
    | Postfix lhs op =>
      obtain ⟨le, lsp⟩ := lhs
      have hsl : sizeOf le < n := by simp at hsize; omega
      cases op with
      | Call args =>
        have hsa : sizeOf args < n := by simp at hsize; omega
        constructor
        · intro er h
          simp only [FnLoweringCtxt.lower_expr] at h
          rw [LRes.bind_eq_err] at h
          rcases h with h | ⟨⟨cx₁, lop⟩, h₁, h⟩
          · exact ((ih _ hsl).1 le cx lsp le_rfl).1 er h
          · try dsimp only at h
            rw [LRes.bind_eq_err] at h
            rcases h with h | ⟨⟨cx₂, ops₂⟩, h₂, h⟩
            · exact ((ih _ hsa).2 args cx₁ le_rfl).1 er h
            · try dsimp only at h
              rw [LRes.bind_eq_err] at h
              rcases h with h | ⟨⟨lcx₂, tyl⟩, hl, h⟩
              · exact layout_of_no_err _ _ _ h
              · try dsimp only at h
                simp at h
        · intro cx' op' h
          simp only [FnLoweringCtxt.lower_expr] at h
          rw [LRes.bind_eq_ok] at h
          obtain ⟨⟨cx₁, lop⟩, h₁, h⟩ := h
          try dsimp only at h
          rw [LRes.bind_eq_ok] at h
          obtain ⟨⟨cx₂, ops₂⟩, h₂, h⟩ := h
          try dsimp only at h
          rw [LRes.bind_eq_ok] at h
          obtain ⟨⟨lcx₂, tyl⟩, hl, h⟩ := h
          try dsimp only at h
          simp only [LRes.ok.injEq, Prod.mk.injEq] at h
          obtain ⟨hcx', -⟩ := h
          subst hcx'
          have s₁ := ((ih _ hsl).1 le cx lsp le_rfl).2 cx₁ lop h₁
          have s₂ := ((ih _ hsa).2 args cx₁ le_rfl).2 cx₂ ops₂ h₂
          exact ⟨s₂.1.trans s₁.1,
                 extendsCur_trans (extendsCur_trans s₁.2 s₂.2) (extendsCur_call cx₂.build tyl lop ops₂ sp)⟩
      | Member i =>
        constructor
        · intro er h
          simp only [FnLoweringCtxt.lower_expr] at h
          rw [LRes.bind_eq_err] at h
          rcases h with h | ⟨⟨cx₁, lop⟩, h₁, h⟩
          · exact ((ih _ hsl).1 le cx lsp le_rfl).1 er h
          · try dsimp only at h
            simp at h
        · intro cx' op' h
          simp only [FnLoweringCtxt.lower_expr] at h
          rw [LRes.bind_eq_ok] at h
          obtain ⟨⟨cx₁, lop⟩, h₁, h⟩ := h
          try dsimp only at h
          simp at h
      | ArrowMember i =>
        constructor
        · intro er h
          simp only [FnLoweringCtxt.lower_expr] at h
          rw [LRes.bind_eq_err] at h
          rcases h with h | ⟨⟨cx₁, lop⟩, h₁, h⟩
          · exact ((ih _ hsl).1 le cx lsp le_rfl).1 er h
          · try dsimp only at h
            simp at h
        · intro cx' op' h
          simp only [FnLoweringCtxt.lower_expr] at h
          rw [LRes.bind_eq_ok] at h
          obtain ⟨⟨cx₁, lop⟩, h₁, h⟩ := h
          try dsimp only at h
          simp at h
      | Increment =>
        constructor
        · intro er h
          simp only [FnLoweringCtxt.lower_expr] at h
          rw [LRes.bind_eq_err] at h
          rcases h with h | ⟨⟨cx₁, lop⟩, h₁, h⟩
          · exact ((ih _ hsl).1 le cx lsp le_rfl).1 er h
          · try dsimp only at h
            simp at h
        · intro cx' op' h
          simp only [FnLoweringCtxt.lower_expr] at h
          rw [LRes.bind_eq_ok] at h
          obtain ⟨⟨cx₁, lop⟩, h₁, h⟩ := h
          try dsimp only at h
          simp at h
      | Decrement =>
        constructor
        · intro er h
          simp only [FnLoweringCtxt.lower_expr] at h
          rw [LRes.bind_eq_err] at h
          rcases h with h | ⟨⟨cx₁, lop⟩, h₁, h⟩
          · exact ((ih _ hsl).1 le cx lsp le_rfl).1 er h
          · try dsimp only at h
            simp at h
        · intro cx' op' h
          simp only [FnLoweringCtxt.lower_expr] at h
          rw [LRes.bind_eq_ok] at h
          obtain ⟨⟨cx₁, lop⟩, h₁, h⟩ := h
          try dsimp only at h
          simp at h
  · intro args cx hsize
    cases args with
    | nil =>
      constructor
      · intro er h
        simp [FnLoweringCtxt.lower_exprs] at h
      · intro cx' ops h
        simp only [FnLoweringCtxt.lower_exprs, LRes.ok.injEq, Prod.mk.injEq] at h
        obtain ⟨h₁, -⟩ := h
        subst h₁
        exact ⟨rfl, extendsCur_refl _⟩
    | cons a rest =>
      obtain ⟨ae, asp⟩ := a
      have hse : sizeOf ae < n := by simp at hsize; omega
      have hsr : sizeOf rest < n := by simp at hsize; omega
      constructor
      · intro er h
        simp only [FnLoweringCtxt.lower_exprs] at h
        rw [LRes.bind_eq_err] at h
        rcases h with h | ⟨⟨cx₁, op₁⟩, h₁, h⟩
        · exact ((ih _ hse).1 ae cx asp le_rfl).1 er h
        · try dsimp only at h
          rw [LRes.bind_eq_err] at h
          rcases h with h | ⟨⟨cx₂, ops₂⟩, h₂, h⟩
          · exact ((ih _ hsr).2 rest cx₁ le_rfl).1 er h
          · try dsimp only at h
            simp at h
      · intro cx' ops h
        simp only [FnLoweringCtxt.lower_exprs] at h
        rw [LRes.bind_eq_ok] at h
        obtain ⟨⟨cx₁, op₁⟩, h₁, h⟩ := h
        try dsimp only at h
        rw [LRes.bind_eq_ok] at h
        obtain ⟨⟨cx₂, ops₂⟩, h₂, h⟩ := h
        try dsimp only at h
        simp only [LRes.ok.injEq, Prod.mk.injEq] at h
        obtain ⟨h₃, -⟩ := h
        subst h₃
        have s₁ := ((ih _ hse).1 ae cx asp le_rfl).2 cx₁ op₁ h₁
        have s₂ := ((ih _ hsr).2 rest cx₁ le_rfl).2 cx₂ ops₂ h₂
        exact ⟨s₂.1.trans s₁.1, extendsCur_trans s₁.2 s₂.2⟩

theorem lower_expr_no_err (cx : FnLoweringCtxt) (e : Expr) (sp : Span) (er : Error) :
    cx.lower_expr e sp ≠ .err er :=
  ((lower_expr_frame_aux (sizeOf e)).1 e cx sp le_rfl).1 er

theorem lower_expr_ok {cx cx' : FnLoweringCtxt} {e : Expr} {sp : Span} {op : Operand}
    (h : cx.lower_expr e sp = .ok (cx', op)) :
    cx'.scopes = cx.scopes ∧ extendsCur cx.build cx'.build :=
  ((lower_expr_frame_aux (sizeOf e)).1 e cx sp le_rfl).2 cx' op h

theorem lower_exprs_no_err (cx : FnLoweringCtxt) (args : List (Expr × Span)) (er : Error) :
    cx.lower_exprs args ≠ .err er :=
  ((lower_expr_frame_aux (sizeOf args)).2 args cx le_rfl).1 er

theorem lower_exprs_ok {cx cx' : FnLoweringCtxt} {args : List (Expr × Span)}
    {ops : List Operand} (h : cx.lower_exprs args = .ok (cx', ops)) :
    cx'.scopes = cx.scopes ∧ extendsCur cx.build cx'.build :=
  ((lower_expr_frame_aux (sizeOf args)).2 args cx le_rfl).2 cx' ops h


/-- Frame property of the declaration-lowering loop: it never returns a
recoverable `Err`, preserves the scope-stack depth (it only inserts into
the innermost scope), and only appends statements to the current
block. -/
theorem lower_init_decls_frame :
    ∀ (ds : List (Spanned InitDecl)) (cx : FnLoweringCtxt) (ty : Ty)
      (attr : DeclAttr) (sp : Span),
      (∀ er, cx.lower_init_decls ty attr sp ds ≠ .err er)
      ∧ ∀ cx', cx.lower_init_decls ty attr sp ds = .ok cx' →
          cx'.scopes.length = cx.scopes.length ∧ extendsCur cx.build cx'.build := by
  intro ds
  induction ds with
  | nil =>
    intro cx ty attr sp
    constructor
    · intro er h
      simp only [FnLoweringCtxt.lower_init_decls] at h
      cases h
    · intro cx' h
      simp only [FnLoweringCtxt.lower_init_decls, LRes.ok.injEq] at h
      subst h
      exact ⟨rfl, extendsCur_refl _⟩
  | cons d rest ih =>
    obtain ⟨var, dsp⟩ := d
    intro cx ty attr sp
    constructor
    · intro er h
      simp only [FnLoweringCtxt.lower_init_decls] at h
      rw [LRes.bind_eq_err] at h
      rcases h with h | ⟨⟨lcx₁, tyl⟩, hl, h⟩
      · exact layout_of_no_err _ _ _ h
      · dsimp only at h
        rw [LRes.bind_eq_err] at h
        rcases h with h | ⟨cxi, hins, h⟩
        · generalize insertLastScope _ _ _ = oI at h
          cases oI <;> cases h
        · rw [LRes.bind_eq_err] at h
          rcases h with h | ⟨cxj, hinit, h⟩
          · rcases hv : var.init with _ | ⟨ie, isp⟩ <;> rw [hv] at h
            · cases h
            · rw [LRes.bind_eq_err] at h
              rcases h with h | ⟨⟨cxk, iop⟩, hk, h⟩
              · exact lower_expr_no_err _ _ _ _ h
              · dsimp only at h
                cases h
          · exact ((ih _ ty attr sp).1 er) h
    · intro cx' h
      simp only [FnLoweringCtxt.lower_init_decls] at h
      rw [LRes.bind_eq_ok] at h
      obtain ⟨⟨lcx₁, tyl⟩, hl, h⟩ := h
      dsimp only at h
      rw [LRes.bind_eq_ok] at h
      obtain ⟨cxi, hins, h⟩ := h
      rw [LRes.bind_eq_ok] at h
      obtain ⟨cxj, hinit, h⟩ := h
      have hrec := (ih cxj ty attr sp).2 cx' h
      -- the insert step
      have hins2 : cxi.scopes.length = cx.scopes.length ∧
          cxi.build = (cx.build.alloca tyl.layout.val
            (some var.declarator.decl.name.1) sp).1 := by
        rcases hI : insertLastScope cx.scopes var.declarator.decl.name.1
            ⟨dsp, tyl, (cx.build.alloca tyl.layout.val
              (some var.declarator.decl.name.1) sp).2, attr⟩ with _ | sc
        all_goals rw [hI] at hins
        · cases hins
        · cases hins
          exact ⟨insertLastScope_length _ _ _ _ hI, rfl⟩
      -- the init step
      have hinit2 : cxj.scopes.length = cxi.scopes.length ∧
          extendsCur cxi.build cxj.build := by
        rcases hv : var.init with _ | ⟨ie, isp⟩ <;> rw [hv] at hinit
        · cases hinit
          exact ⟨rfl, extendsCur_refl _⟩
        · rw [LRes.bind_eq_ok] at hinit
          obtain ⟨⟨cxk, iop⟩, hk, hinit⟩ := hinit
          dsimp only at hinit
          cases hinit
          have he := lower_expr_ok hk
          refine ⟨by rw [he.1], ?_⟩
          exact extendsCur_trans he.2 (extendsCur_store ..)
      refine ⟨?_, ?_⟩
      · rw [hrec.1, hinit2.1, hins2.1]
      · have h1 : extendsCur cx.build cxi.build := by
          rw [hins2.2]
          exact extendsCur_alloca ..
        exact extendsCur_trans (extendsCur_trans h1 hinit2.2) hrec.2


/-- Fuel-indexed frame property of statement lowering: every recoverable
`Err` that `lower_stmt`/`lower_body` returns is an unresolved-variable
error (message `"cannot find variable <x>"`), and successful lowering
never changes the depth of the scope stack. -/
theorem lower_stmt_frame_aux : ∀ (n : Nat),
    (∀ (stmt : Stmt) (cx : FnLoweringCtxt) (sp : Span), sizeOf stmt ≤ n →
      (∀ er, cx.lower_stmt stmt sp = .err er →
         ∃ x, er.message = "cannot find variable " ++ x)
      ∧ ∀ cx', cx.lower_stmt stmt sp = .ok cx' →
          cx'.scopes.length = cx.scopes.length)
    ∧ (∀ (body : List (Stmt × Span)) (cx : FnLoweringCtxt), sizeOf body ≤ n →
      (∀ er, cx.lower_body body = .err er →
         ∃ x, er.message = "cannot find variable " ++ x)
      ∧ ∀ cx', cx.lower_body body = .ok cx' →
          cx'.scopes.length = cx.scopes.length) := by
  intro n
  induction n using Nat.strong_induction_on with
  | _ n ih =>
  constructor
  · intro stmt cx sp hsize
    cases stmt with
    | Decl d =>
      constructor
      · intro er h
        rw [FnLoweringCtxt.lower_stmt.eq_def] at h
        simp only at h
        rw [LRes.bind_eq_err] at h
        rcases h with h | ⟨nd, hnd, h⟩
        · rcases ho : d.uwnrap_normal with _ | nd <;> rw [ho] at h <;> cases h
        · exact absurd h ((lower_init_decls_frame _ _ _ _ _).1 er)
      · intro cx' h
        rw [FnLoweringCtxt.lower_stmt.eq_def] at h
        simp only at h
        rw [LRes.bind_eq_ok] at h
        obtain ⟨nd, hnd, h⟩ := h
        exact ((lower_init_decls_frame _ _ _ _ _).2 cx' h).1
    | Labeled l st =>
      exact ⟨fun er h => by (rw [FnLoweringCtxt.lower_stmt.eq_def] at h; simp only at h; cases h),
             fun cx' h => by (rw [FnLoweringCtxt.lower_stmt.eq_def] at h; simp only at h; cases h)⟩
    | Compound ss =>
      exact ⟨fun er h => by (rw [FnLoweringCtxt.lower_stmt.eq_def] at h; simp only at h; cases h),
             fun cx' h => by (rw [FnLoweringCtxt.lower_stmt.eq_def] at h; simp only at h; cases h)⟩
    | Switch =>
      exact ⟨fun er h => by (rw [FnLoweringCtxt.lower_stmt.eq_def] at h; simp only at h; cases h),
             fun cx' h => by (rw [FnLoweringCtxt.lower_stmt.eq_def] at h; simp only at h; cases h)⟩
    | While c b =>
      exact ⟨fun er h => by (rw [FnLoweringCtxt.lower_stmt.eq_def] at h; simp only at h; cases h),
             fun cx' h => by (rw [FnLoweringCtxt.lower_stmt.eq_def] at h; simp only at h; cases h)⟩
    | For a b c d =>
      exact ⟨fun er h => by (rw [FnLoweringCtxt.lower_stmt.eq_def] at h; simp only at h; cases h),
             fun cx' h => by (rw [FnLoweringCtxt.lower_stmt.eq_def] at h; simp only at h; cases h)⟩
    | Goto l =>
      exact ⟨fun er h => by (rw [FnLoweringCtxt.lower_stmt.eq_def] at h; simp only at h; cases h),
             fun cx' h => by (rw [FnLoweringCtxt.lower_stmt.eq_def] at h; simp only at h; cases h)⟩
    | Continue =>
      exact ⟨fun er h => by (rw [FnLoweringCtxt.lower_stmt.eq_def] at h; simp only at h; cases h),
             fun cx' h => by (rw [FnLoweringCtxt.lower_stmt.eq_def] at h; simp only at h; cases h)⟩
    | Break =>
      exact ⟨fun er h => by (rw [FnLoweringCtxt.lower_stmt.eq_def] at h; simp only at h; cases h),
             fun cx' h => by (rw [FnLoweringCtxt.lower_stmt.eq_def] at h; simp only at h; cases h)⟩
    | Return e =>
      exact ⟨fun er h => by (rw [FnLoweringCtxt.lower_stmt.eq_def] at h; simp only at h; cases h),
             fun cx' h => by (rw [FnLoweringCtxt.lower_stmt.eq_def] at h; simp only at h; cases h)⟩
    | If cond tb oth =>
      obtain ⟨ce, csp⟩ := cond
      have hstb : sizeOf tb < n := by simp at hsize; omega
      constructor
      · intro er h
        rw [FnLoweringCtxt.lower_stmt.eq_def] at h
        simp only at h
        rw [LRes.bind_eq_err] at h
        rcases h with h | ⟨⟨cx₁, cop⟩, hc, h⟩
        · exact absurd h (lower_expr_no_err _ _ _ _)
        · dsimp only at h
          rcases oth with _ | o
          · rw [LRes.bind_eq_err] at h
            rcases h with h | ⟨cx₂, hb, h⟩
            · exact ((ih _ hstb).2 tb _ le_rfl).1 er h
            · try dsimp only at h
              cases h
          · have hso : sizeOf o < n := by simp at hsize; omega
            rw [LRes.bind_eq_err] at h
            rcases h with h | ⟨cx₂, hb, h⟩
            · exact ((ih _ hstb).2 tb _ le_rfl).1 er h
            · try dsimp only at h
              rw [LRes.bind_eq_err] at h
              rcases h with h | ⟨cx₃, hb₂, h⟩
              · exact ((ih _ hso).2 o _ le_rfl).1 er h
              · try dsimp only at h
                cases h
      · intro cx' h
        rw [FnLoweringCtxt.lower_stmt.eq_def] at h
        simp only at h
        rw [LRes.bind_eq_ok] at h
        obtain ⟨⟨cx₁, cop⟩, hc, h⟩ := h
        dsimp only at h
        have hce := lower_expr_ok hc
        rcases oth with _ | o
        · rw [LRes.bind_eq_ok] at h
          obtain ⟨cx₂, hb, h⟩ := h
          try dsimp only at h
          cases h
          have hl := ((ih _ hstb).2 tb _ le_rfl).2 cx₂ hb
          show cx₂.scopes.length = cx.scopes.length
          rw [hl]
          show cx₁.scopes.length = cx.scopes.length
          rw [hce.1]
        · have hso : sizeOf o < n := by simp at hsize; omega
          rw [LRes.bind_eq_ok] at h
          obtain ⟨cx₂, hb, h⟩ := h
          try dsimp only at h
          rw [LRes.bind_eq_ok] at h
          obtain ⟨cx₃, hb₂, h⟩ := h
          try dsimp only at h
          cases h
          have hl := ((ih _ hstb).2 tb _ le_rfl).2 cx₂ hb
          have hl₂ := ((ih _ hso).2 o _ le_rfl).2 cx₃ hb₂
          show cx₃.scopes.length = cx.scopes.length
          rw [hl₂]
          show cx₂.scopes.length = cx.scopes.length
          rw [hl]
          show cx₁.scopes.length = cx.scopes.length
          rw [hce.1]
    | Expr e =>
      rcases e with a | ⟨uop, urhs⟩ | ⟨bop, blhs, brhs⟩ | ⟨plhs, pop⟩
      case Atom =>
        constructor
        · intro er h
          rw [FnLoweringCtxt.lower_stmt.eq_def] at h
          simp only at h
          rw [LRes.bind_eq_err] at h
          rcases h with h | ⟨⟨cx₁, op₁⟩, h₁, h⟩
          · exact absurd h (lower_expr_no_err _ _ _ _)
          · dsimp only at h
            cases h
        · intro cx' h
          rw [FnLoweringCtxt.lower_stmt.eq_def] at h
          simp only at h
          rw [LRes.bind_eq_ok] at h
          obtain ⟨⟨cx₁, op₁⟩, h₁, h⟩ := h
          dsimp only at h
          cases h
          rw [(lower_expr_ok h₁).1]
      case Unary =>
        constructor
        · intro er h
          rw [FnLoweringCtxt.lower_stmt.eq_def] at h
          simp only at h
          rw [LRes.bind_eq_err] at h
          rcases h with h | ⟨⟨cx₁, op₁⟩, h₁, h⟩
          · exact absurd h (lower_expr_no_err _ _ _ _)
          · dsimp only at h
            cases h
        · intro cx' h
          rw [FnLoweringCtxt.lower_stmt.eq_def] at h
          simp only at h
          rw [LRes.bind_eq_ok] at h
          obtain ⟨⟨cx₁, op₁⟩, h₁, h⟩ := h
          dsimp only at h
          cases h
          rw [(lower_expr_ok h₁).1]
      case Postfix =>
        constructor
        · intro er h
          rw [FnLoweringCtxt.lower_stmt.eq_def] at h
          simp only at h
          rw [LRes.bind_eq_err] at h
          rcases h with h | ⟨⟨cx₁, op₁⟩, h₁, h⟩
          · exact absurd h (lower_expr_no_err _ _ _ _)
          · dsimp only at h
            cases h
        · intro cx' h
          rw [FnLoweringCtxt.lower_stmt.eq_def] at h
          simp only at h
          rw [LRes.bind_eq_ok] at h
          obtain ⟨⟨cx₁, op₁⟩, h₁, h⟩ := h
          dsimp only at h
          cases h
          rw [(lower_expr_ok h₁).1]
      case Binary =>
        rcases bop with k | _ | _ | k | _ | _ | asg
        case Assign =>
          rcases asg with _ | a
          · -- plain assignment
            obtain ⟨lhe, lhsp⟩ := blhs
            constructor
            · intro er h
              rw [FnLoweringCtxt.lower_stmt.eq_def] at h
              simp only [Option.isSome_none, Bool.false_eq_true, if_false] at h
              rw [LRes.bind_eq_err] at h
              rcases h with h | ⟨⟨cx₁, rop⟩, h₁, h⟩
              · exact absurd h (lower_expr_no_err _ _ _ _)
              · simp only at h
                rcases lhe with la | ⟨uop₂, urhs₂⟩ | ⟨bop₂, bl₂, br₂⟩ | ⟨pl₂, pop₂⟩
                case Atom =>
                  rcases la with ⟨x, xsp⟩ | i | f | bs | c
                  case Ident =>
                    simp only at h
                    rcases hr : cx₁.resolve_ident x with _ | vi <;> rw [hr] at h
                    · cases h
                      exact ⟨x, rfl⟩
                    · cases h
                  all_goals cases h
                all_goals cases h
            · intro cx' h
              rw [FnLoweringCtxt.lower_stmt.eq_def] at h
              simp only [Option.isSome_none, Bool.false_eq_true, if_false] at h
              rw [LRes.bind_eq_ok] at h
              obtain ⟨⟨cx₁, rop⟩, h₁, h⟩ := h
              simp only at h
              rcases lhe with la | ⟨uop₂, urhs₂⟩ | ⟨bop₂, bl₂, br₂⟩ | ⟨pl₂, pop₂⟩
              case Atom =>
                rcases la with ⟨x, xsp⟩ | i | f | bs | c
                case Ident =>
                  simp only at h
                  rcases hr : cx₁.resolve_ident x with _ | vi <;> rw [hr] at h
                  · cases h
                  · cases h
                    rw [(lower_expr_ok h₁).1]
                all_goals cases h
              all_goals cases h
          · -- compound assignment: todo
            exact ⟨fun er h => by (rw [FnLoweringCtxt.lower_stmt.eq_def] at h; simp only at h; cases h),
                   fun cx' h => by (rw [FnLoweringCtxt.lower_stmt.eq_def] at h; simp only at h; cases h)⟩
        all_goals
          constructor
        all_goals
          first
          | (intro er h
             rw [FnLoweringCtxt.lower_stmt.eq_def] at h
             simp only at h
             rw [LRes.bind_eq_err] at h
             rcases h with h | ⟨⟨cx₁, op₁⟩, h₁, h⟩
             · exact absurd h (lower_expr_no_err _ _ _ _)
             · dsimp only at h
               cases h)
          | (intro cx' h
             rw [FnLoweringCtxt.lower_stmt.eq_def] at h
             simp only at h
             rw [LRes.bind_eq_ok] at h
             obtain ⟨⟨cx₁, op₁⟩, h₁, h⟩ := h
             dsimp only at h
             cases h
             rw [(lower_expr_ok h₁).1])
  · intro body cx hsize
    cases body with
    | nil =>
      constructor
      · intro er h
        rw [FnLoweringCtxt.lower_body.eq_def] at h
        simp only at h
        cases h
      · intro cx' h
        rw [FnLoweringCtxt.lower_body.eq_def] at h
        simp only [LRes.ok.injEq] at h
        subst h
        rfl
    | cons p rest =>
      obtain ⟨st, stsp⟩ := p
      have hs1 : sizeOf st < n := by simp at hsize; omega
      have hs2 : sizeOf rest < n := by simp at hsize; omega
      constructor
      · intro er h
        rw [FnLoweringCtxt.lower_body.eq_def] at h
        simp only at h
        rw [LRes.bind_eq_err] at h
        rcases h with h | ⟨cx₁, h₁, h⟩
        · exact ((ih _ hs1).1 st cx stsp le_rfl).1 er h
        · exact ((ih _ hs2).2 rest cx₁ le_rfl).1 er h
      · intro cx' h
        rw [FnLoweringCtxt.lower_body.eq_def] at h
        simp only at h
        rw [LRes.bind_eq_ok] at h
        obtain ⟨cx₁, h₁, h⟩ := h
        have l₁ := ((ih _ hs1).1 st cx stsp le_rfl).2 cx₁ h₁
        have l₂ := ((ih _ hs2).2 rest cx₁ le_rfl).2 cx' h
        rw [l₂, l₁]

theorem lower_stmt_err_shape {cx : FnLoweringCtxt} {stmt : Stmt} {sp : Span}
    {er : Error} (h : cx.lower_stmt stmt sp = .err er) :
    ∃ x, er.message = "cannot find variable " ++ x :=
  ((lower_stmt_frame_aux (sizeOf stmt)).1 stmt cx sp le_rfl).1 er h

theorem lower_stmt_scopes_length {cx cx' : FnLoweringCtxt} {stmt : Stmt} {sp : Span}
    (h : cx.lower_stmt stmt sp = .ok cx') :
    cx'.scopes.length = cx.scopes.length :=
  ((lower_stmt_frame_aux (sizeOf stmt)).1 stmt cx sp le_rfl).2 cx' h

theorem lower_body_err_shape {cx : FnLoweringCtxt} {body : List (Stmt × Span)}
    {er : Error} (h : cx.lower_body body = .err er) :
    ∃ x, er.message = "cannot find variable " ++ x :=
  ((lower_stmt_frame_aux (sizeOf body)).2 body cx le_rfl).1 er h

theorem lower_body_scopes_length {cx cx' : FnLoweringCtxt} {body : List (Stmt × Span)}
    (h : cx.lower_body body = .ok cx') :
    cx'.scopes.length = cx.scopes.length :=
  ((lower_stmt_frame_aux (sizeOf body)).2 body cx le_rfl).2 cx' h

/-! ## Interner lemmas -/

theorem intern_layout_val (cx : LoweringCx) (l : Layout) :
    ((cx.intern_layout l).2).val = l := by
  unfold LoweringCx.intern_layout
  rcases h : cx.layouts.findIdx? (· = l) with _ | i <;> simp [h]

theorem intern_ty_val (cx : LoweringCx) (k : TyKind) :
    ((cx.intern_ty k).2).kind = k := by
  unfold LoweringCx.intern_ty
  rcases h : cx.tys.findIdx? (· = k) with _ | i <;> simp [h]

theorem intern_ty_stable (cx : LoweringCx) (k : TyKind) :
    (cx.intern_ty k).1.intern_ty k = cx.intern_ty k := by
  unfold LoweringCx.intern_ty
  rcases h : cx.tys.findIdx? (· = k) with _ | i
  · simp only [h]
    rw [List.findIdx?_append, h]
    simp
  · simp [h]

theorem intern_layout_stable (cx : LoweringCx) (l : Layout) :
    (cx.intern_layout l).1.intern_layout l = cx.intern_layout l := by
  unfold LoweringCx.intern_layout
  rcases h : cx.layouts.findIdx? (· = l) with _ | i
  · simp only [h]
    rw [List.findIdx?_append, h]
    simp
  · simp [h]

/-- C6: for every supported primitive type and any interner state,
`layout_of` returns exactly the fixed (size, align) pair in bytes:
void (0,1); char, schar, uchar and bool (1,1); short (2,2); int (4,4);
long (8,8); long long (8,8); float (4,4); double (8,8);
long double (8,8); pointer (8,8). -/
theorem layout_of_fixed_primitives :
    ∀ (cx : LoweringCx) (i p : Nat) (sign : IntSign),
      layoutOfSizeAlign cx ⟨i, .Void⟩ = some (0, 1)
    ∧ layoutOfSizeAlign cx ⟨i, .Char⟩ = some (1, 1)
    ∧ layoutOfSizeAlign cx ⟨i, .SChar⟩ = some (1, 1)
    ∧ layoutOfSizeAlign cx ⟨i, .UChar⟩ = some (1, 1)
    ∧ layoutOfSizeAlign cx ⟨i, .Bool⟩ = some (1, 1)
    ∧ layoutOfSizeAlign cx ⟨i, .Integer ⟨sign, .Short⟩⟩ = some (2, 2)
    ∧ layoutOfSizeAlign cx ⟨i, .Integer ⟨sign, .Int⟩⟩ = some (4, 4)
    ∧ layoutOfSizeAlign cx ⟨i, .Integer ⟨sign, .Long⟩⟩ = some (8, 8)
    ∧ layoutOfSizeAlign cx ⟨i, .Integer ⟨sign, .LongLong⟩⟩ = some (8, 8)
    ∧ layoutOfSizeAlign cx ⟨i, .Float⟩ = some (4, 4)
    ∧ layoutOfSizeAlign cx ⟨i, .Double⟩ = some (8, 8)
    ∧ layoutOfSizeAlign cx ⟨i, .LongDouble⟩ = some (8, 8)
    ∧ layoutOfSizeAlign cx ⟨i, .Ptr p⟩ = some (8, 8) := by
  intro cx i p sign
  refine ⟨?_, ?_, ?_, ?_, ?_, ?_, ?_, ?_, ?_, ?_, ?_, ?_, ?_⟩ <;>
    simp [layoutOfSizeAlign, LoweringCx.layout_of, sizeAlignFor,
      Layout.size_align, intern_layout_val]

/-- C5: interning is idempotent and canonicalizing — re-interning a
structurally equal `TyKind` returns the identical arena index (and leaves
the interner unchanged), `intern_layout` behaves the same for equal
`Layout` values, and repeating `layout_of` on a type whose kind is
structurally equal yields the identical interned layout reference. -/
theorem intern_identity_idempotent :
    (∀ (cx : LoweringCx) (k₁ k₂ : TyKind), k₁ = k₂ →
      (cx.intern_ty k₁).1.intern_ty k₂ = cx.intern_ty k₁)
  ∧ (∀ (cx : LoweringCx) (l₁ l₂ : Layout), l₁ = l₂ →
      (cx.intern_layout l₁).1.intern_layout l₂ = cx.intern_layout l₁)
  ∧ (∀ (cx cx' : LoweringCx) (t₁ t₂ : Ty) (tyl : TyLayout), t₁.kind = t₂.kind →
      cx.layout_of t₁ = .ok (cx', tyl) →
      cx'.layout_of t₂ = .ok (cx', ⟨t₂, tyl.layout⟩)) := by
  refine ⟨fun cx k₁ k₂ hk => hk ▸ intern_ty_stable cx k₁,
          fun cx l₁ l₂ hl => hl ▸ intern_layout_stable cx l₁,
          fun cx cx' t₁ t₂ tyl hk h => ?_⟩
  unfold LoweringCx.layout_of at h ⊢
  rw [← hk]
  rcases hs : sizeAlignFor t₁.kind with l | e | m <;> rw [hs] at h <;>
    simp only [LRes.bind_ok, LRes.bind_err, LRes.bind_abort] at h ⊢
  · obtain ⟨h₁, h₂, h₃⟩ : (cx.intern_layout l).1 = cx' ∧ t₁ = tyl.ty
        ∧ (cx.intern_layout l).2 = tyl.layout := by
      cases h
      exact ⟨rfl, rfl, rfl⟩
    rw [← h₁, intern_layout_stable, h₁, h₃]
  · cases h
  · cases h

/-- Witness for C5 at concrete inputs. -/
theorem intern_identity_idempotent_witness :
    ((⟨[], []⟩ : LoweringCx).intern_ty .Void).1.intern_ty .Void
      = (⟨[], []⟩ : LoweringCx).intern_ty .Void
  ∧ ((⟨[], []⟩ : LoweringCx).intern_layout ⟨4, 4⟩).1.intern_layout ⟨4, 4⟩
      = (⟨[], []⟩ : LoweringCx).intern_layout ⟨4, 4⟩
  ∧ (⟨[], [⟨0, 1⟩]⟩ : LoweringCx).layout_of ⟨1, .Void⟩
      = .ok (⟨[], [⟨0, 1⟩]⟩, ⟨⟨1, .Void⟩, ⟨0, ⟨0, 1⟩⟩⟩) :=
  ⟨intern_identity_idempotent.1 _ .Void .Void rfl,
   intern_identity_idempotent.2.1 _ ⟨4, 4⟩ ⟨4, 4⟩ rfl,
   intern_identity_idempotent.2.2 ⟨[], []⟩ ⟨[], [⟨0, 1⟩]⟩ ⟨0, .Void⟩ ⟨1, .Void⟩
     ⟨⟨0, .Void⟩, ⟨0, ⟨0, 1⟩⟩⟩ rfl rfl⟩

/-- C8: `resolve_ident` searches the scope stack innermost (last) to
outermost (first): when the stack splits as `pre ++ s :: post` with `s`
binding the name and no scope of `post` (the scopes inner to `s`)
binding it, the binding of `s` is returned — in particular an inner
binding shadows any outer one — and a name bound in no active scope
resolves to nothing. -/
theorem resolve_ident_innermost :
    (∀ (cx : FnLoweringCtxt) (pre post : List Scope) (s : Scope) (x : Symbol)
       (v : VariableInfo),
      cx.scopes = pre ++ s :: post →
      scopeGet s x = some v →
      (∀ s' ∈ post, scopeGet s' x = none) →
      cx.resolve_ident x = some v)
  ∧ (∀ (cx : FnLoweringCtxt) (x : Symbol),
      (∀ s ∈ cx.scopes, scopeGet s x = none) →
      cx.resolve_ident x = none) := by
  constructor
  · intro cx pre post s x v hsplit hs hpost
    unfold FnLoweringCtxt.resolve_ident
    rw [hsplit, List.reverse_append, List.reverse_cons, List.findSome?_append,
      List.findSome?_append]
    have hnone : post.reverse.findSome? (fun s => scopeGet s x) = none :=
      List.findSome?_eq_none_iff.mpr (fun s' hs' => hpost s' (List.mem_reverse.mp hs'))
    rw [hnone]
    simp [List.findSome?_cons, hs]
  · intro cx x h
    unfold FnLoweringCtxt.resolve_ident
    exact List.findSome?_eq_none_iff.mpr
      (fun s hs => h s (List.mem_reverse.mp hs))

/-- Witness for C8: with an outer and an inner scope both binding `x`,
resolution returns the inner binding; an unbound name resolves to
nothing. -/
theorem resolve_ident_innermost_witness :
    (FnLoweringCtxt.resolve_ident
      ⟨[[("x", ⟨spn 0, ⟨⟨0, .Void⟩, ⟨0, ⟨0, 1⟩⟩⟩, 0, 0⟩)],
        [("x", ⟨spn 1, ⟨⟨0, .Void⟩, ⟨0, ⟨0, 1⟩⟩⟩, 1, 0⟩)]],
       FuncBuilder.new "f" (spn 0) ⟨0, .Void⟩, ⟨[], []⟩⟩ "x"
      = some ⟨spn 1, ⟨⟨0, .Void⟩, ⟨0, ⟨0, 1⟩⟩⟩, 1, 0⟩)
  ∧ (FnLoweringCtxt.resolve_ident
      ⟨[[("x", ⟨spn 0, ⟨⟨0, .Void⟩, ⟨0, ⟨0, 1⟩⟩⟩, 0, 0⟩)]],
       FuncBuilder.new "f" (spn 0) ⟨0, .Void⟩, ⟨[], []⟩⟩ "y"
      = none) :=
  ⟨resolve_ident_innermost.1 _ [[("x", ⟨spn 0, ⟨⟨0, .Void⟩, ⟨0, ⟨0, 1⟩⟩⟩, 0, 0⟩)]]
      [] [("x", ⟨spn 1, ⟨⟨0, .Void⟩, ⟨0, ⟨0, 1⟩⟩⟩, 1, 0⟩)] "x" _ rfl rfl
      (by intro s' hs'; cases hs'),
   resolve_ident_innermost.2 _ "y" (by
      intro s hs
      rw [List.mem_singleton] at hs
      subst hs
      rfl)⟩

/-! ## Visitor traversal order -/

theorem operandTrace_filter_operand (op : Operand) :
    (visitOperandTrace op).filter VisitEvent.isOperandEv = [.operand op] := by
  cases op <;> rfl

theorem operandTrace_filter_stmt (op : Operand) :
    (visitOperandTrace op).filter VisitEvent.isStmtEv = [] := by
  cases op <;> rfl

theorem operandTrace_filter_bb (op : Operand) :
    (visitOperandTrace op).filter VisitEvent.isBlockEv = [] := by
  cases op <;> rfl

theorem args_trace_filter_operand (args : List Operand) :
    (args.flatMap visitOperandTrace).filter VisitEvent.isOperandEv
      = args.map VisitEvent.operand := by
  induction args with
  | nil => rfl
  | cons a rest ih =>
    simp only [List.flatMap_cons, List.filter_append, List.map_cons,
      operandTrace_filter_operand, ih, List.singleton_append]

theorem args_trace_filter_stmt (args : List Operand) :
    (args.flatMap visitOperandTrace).filter VisitEvent.isStmtEv = [] := by
  induction args with
  | nil => rfl
  | cons a rest ih =>
    simp only [List.flatMap_cons, List.filter_append, operandTrace_filter_stmt,
      List.nil_append, ih]

theorem superStatementTrace_filter_stmt (s : Statement) :
    (superStatementTrace s).filter VisitEvent.isStmtEv = [] := by
  rcases s with ⟨kind, sp⟩
  cases kind <;>
    simp only [superStatementTrace, visitRegTrace, List.filter_append,
      operandTrace_filter_stmt, args_trace_filter_stmt, List.filter_cons,
      List.filter_nil, List.append_nil, List.nil_append] <;> rfl

theorem args_trace_filter_bb (args : List Operand) :
    (args.flatMap visitOperandTrace).filter VisitEvent.isBlockEv = [] := by
  induction args with
  | nil => rfl
  | cons a rest ih =>
    simp only [List.flatMap_cons, List.filter_append, operandTrace_filter_bb,
      List.nil_append, ih]

theorem superStatementTrace_filter_bb (s : Statement) :
    (superStatementTrace s).filter VisitEvent.isBlockEv = [] := by
  rcases s with ⟨kind, sp⟩
  cases kind <;>
    simp only [superStatementTrace, visitRegTrace, List.filter_append,
      operandTrace_filter_bb, args_trace_filter_bb, List.filter_cons,
      List.filter_nil, List.append_nil, List.nil_append] <;> rfl

theorem superBbTrace_filter_stmt (bb : BasicBlock) :
    (superBbTrace bb).filter VisitEvent.isStmtEv
      = bb.statements.map VisitEvent.stmt := by
  rcases bb with ⟨stmts, term⟩
  induction stmts with
  | nil => rfl
  | cons s rest ih =>
    simp only [superBbTrace] at ih ⊢
    simp only [List.flatMap_cons, List.filter_append, visitStatementTrace,
      List.filter_cons, superStatementTrace_filter_stmt, ih, List.map_cons]
    rfl

theorem superBbTrace_filter_bb (bb : BasicBlock) :
    (superBbTrace bb).filter VisitEvent.isBlockEv = [] := by
  rcases bb with ⟨stmts, term⟩
  induction stmts with
  | nil => rfl
  | cons s rest ih =>
    simp only [superBbTrace] at ih ⊢
    simp only [List.flatMap_cons, List.filter_append, visitStatementTrace,
      List.filter_cons, superStatementTrace_filter_bb, ih]
    rfl

/-- C9: the default visitor traversal visits basic blocks in storage
order, statements within each block in storage order, and the operands
of each statement in the fixed role order of its kind: Alloca visits
only its result register; Store visits the pointer then the value; Load
the pointer; BinOp the left then the right operand; UnaryOperation its
operand; PtrOffset the pointer then the amount; Call the callee then the
arguments in declared order.  The trace functions are total — defined
for every statement kind. -/
theorem visitor_default_traversal_order :
    (∀ f : Func,
      (superFuncTrace f).filter VisitEvent.isBlockEv = f.bbs.map VisitEvent.bb)
  ∧ (∀ bb : BasicBlock,
      (superBbTrace bb).filter VisitEvent.isStmtEv
        = bb.statements.map VisitEvent.stmt)
  ∧ (∀ (r s a : Nat) (sp : Span),
      superStatementTrace ⟨.Alloca r s a, sp⟩ = [.reg r])
  ∧ (∀ (p v : Operand) (s a : Nat) (sp : Span),
      (superStatementTrace ⟨.Store p v s a, sp⟩).filter VisitEvent.isOperandEv
        = [.operand p, .operand v])
  ∧ (∀ (r : Register) (p : Operand) (s a : Nat) (sp : Span),
      (superStatementTrace ⟨.Load r p s a, sp⟩).filter VisitEvent.isOperandEv
        = [.operand p])
  ∧ (∀ (k : BinKind) (l r : Operand) (res : Register) (sp : Span),
      (superStatementTrace ⟨.BinOp k l r res, sp⟩).filter VisitEvent.isOperandEv
        = [.operand l, .operand r])
  ∧ (∀ (rh : Operand) (k : UnaryKind) (res : Register) (sp : Span),
      (superStatementTrace ⟨.UnaryOperation rh k res, sp⟩).filter VisitEvent.isOperandEv
        = [.operand rh])
  ∧ (∀ (res : Register) (p am : Operand) (sp : Span),
      (superStatementTrace ⟨.PtrOffset res p am, sp⟩).filter VisitEvent.isOperandEv
        = [.operand p, .operand am])
  ∧ (∀ (res : Register) (f : Operand) (args : List Operand) (sp : Span),
      (superStatementTrace ⟨.Call res f args, sp⟩).filter VisitEvent.isOperandEv
        = .operand f :: args.map VisitEvent.operand) := by
  refine ⟨?_, superBbTrace_filter_stmt, ?_, ?_, ?_, ?_, ?_, ?_, ?_⟩
  · intro f
    rcases f with ⟨name, dsp, rt, bbs⟩
    induction bbs with
    | nil => rfl
    | cons bb rest ih =>
      simp only [superFuncTrace] at ih ⊢
      simp only [List.flatMap_cons, List.filter_append, visitBbTrace,
        List.filter_cons, superBbTrace_filter_bb, ih, List.map_cons]
      rfl
  all_goals
    intros
    simp only [superStatementTrace, visitRegTrace, List.filter_append,
      List.filter_cons, List.filter_nil, operandTrace_filter_operand,
      args_trace_filter_operand, VisitEvent.isOperandEv, List.nil_append,
      List.append_nil, List.singleton_append]
  all_goals rfl

/-! ## End-to-end lowering examples (C1, C3) -/

/-- C1 counterexample: lowering the §8 end-to-end body
`int x = 2; int y = 3; if (x < y) { x = x + y; } int z = x;` does not
produce the described block graph — it aborts with the `todo!("no
idents")` panic as soon as the identifier `x` in the if condition is
lowered, so no Switch, then-block or continuation is ever built. -/
theorem end_to_end_example_aborts :
    FnLoweringCtxt.lower_body exSt0 exBodyC1 = .abort "no idents" := by
  simp [FnLoweringCtxt.lower_body, FnLoweringCtxt.lower_stmt, FnLoweringCtxt.lower_expr,
    FnLoweringCtxt.lower_exprs, FnLoweringCtxt.lower_init_decls, Decl.uwnrap_normal,
    LoweringCx.lower_ty, LoweringCx.intern_ty, LoweringCx.layout_of, sizeAlignFor,
    LoweringCx.intern_layout, Layout.size_align, insertLastScope,
    FnLoweringCtxt.resolve_ident, scopeGet, FuncBuilder.new, FuncBuilder.push,
    FuncBuilder.alloca, FuncBuilder.store, FuncBuilder.binary, FuncBuilder.call,
    FuncBuilder.new_block, FuncBuilder.set_term, modifyIdx, u128_as_i128, initFnCtxt,
    exSt0, exBodyC1, intDecl, identE, intE, intTS, spn, DirectDeclarator.name,
    List.findIdx?_cons]

/-- C1 amended: lowering the supported prefix `int x = 2; int y = 3;`
produces exactly an Alloca plus a Store for `x` and for `y` in the entry
block (registers 0 and 1, int layout 4/4), but lowering the full §8 body
aborts at the identifier reference `x` in the if condition (`Atom::Ident`
is an unimplemented fault), so the Switch on the Lt comparison, the
then-block and the continuation block are never produced. -/
theorem end_to_end_example_amended :
    FnLoweringCtxt.lower_body exSt0 exBodyC1Pre = .ok
      ⟨[[("y", ⟨spn 2, ⟨⟨0, .Integer ⟨.Signed, .Int⟩⟩, ⟨0, ⟨4, 4⟩⟩⟩, 1, 0⟩),
         ("x", ⟨spn 2, ⟨⟨0, .Integer ⟨.Signed, .Int⟩⟩, ⟨0, ⟨4, 4⟩⟩⟩, 0, 0⟩)]],
       ⟨"f", spn 0, ⟨0, .Void⟩,
        [⟨[⟨.Alloca 0 4 4, spn 4⟩, ⟨.Store (.Reg 0) (.Const (.Int 2)) 4 4, spn 3⟩,
           ⟨.Alloca 1 4 4, spn 6⟩, ⟨.Store (.Reg 1) (.Const (.Int 3)) 4 4, spn 5⟩],
          .Unset⟩],
        0, 2⟩,
       ⟨[.Integer ⟨.Signed, .Int⟩], [⟨4, 4⟩]⟩⟩
  ∧ FnLoweringCtxt.lower_body exSt0 exBodyC1 = .abort "no idents" := by
  constructor
  · simp [FnLoweringCtxt.lower_body, FnLoweringCtxt.lower_stmt, FnLoweringCtxt.lower_expr,
      FnLoweringCtxt.lower_exprs, FnLoweringCtxt.lower_init_decls, Decl.uwnrap_normal,
      LoweringCx.lower_ty, LoweringCx.intern_ty, LoweringCx.layout_of, sizeAlignFor,
      LoweringCx.intern_layout, Layout.size_align, insertLastScope,
      FuncBuilder.new, FuncBuilder.push,
      FuncBuilder.alloca, FuncBuilder.store, FuncBuilder.binary, FuncBuilder.call,
      FuncBuilder.new_block, FuncBuilder.set_term, modifyIdx, u128_as_i128, initFnCtxt,
      exSt0, exBodyC1, exBodyC1Pre, intDecl, identE, intE, intTS, spn,
      DirectDeclarator.name, List.findIdx?_cons]
  · simp [FnLoweringCtxt.lower_body, FnLoweringCtxt.lower_stmt, FnLoweringCtxt.lower_expr,
      FnLoweringCtxt.lower_exprs, FnLoweringCtxt.lower_init_decls, Decl.uwnrap_normal,
      LoweringCx.lower_ty, LoweringCx.intern_ty, LoweringCx.layout_of, sizeAlignFor,
      LoweringCx.intern_layout, Layout.size_align, insertLastScope,
      FnLoweringCtxt.resolve_ident, scopeGet, FuncBuilder.new, FuncBuilder.push,
      FuncBuilder.alloca, FuncBuilder.store, FuncBuilder.binary, FuncBuilder.call,
      FuncBuilder.new_block, FuncBuilder.set_term, modifyIdx, u128_as_i128, initFnCtxt,
      exSt0, exBodyC1, intDecl, identE, intE, intTS, spn, DirectDeclarator.name,
      List.findIdx?_cons]

/-- C3 counterexample: lowering the supported translation unit
`int main() {}` does not return Ok with a finished Func — the final
block of the function is never terminated (`Return` lowering is
unimplemented), so the builder's finish assertion fails and the pass
aborts. -/
theorem translation_unit_example_aborts :
    lower_translation_unit exUnit = .abort "finish: unterminated block" := by
  simp [lower_translation_unit, ltuLoop, lower_body, FnLoweringCtxt.lower_body,
    Decl.uwnrap_normal, LoweringCx.lower_ty, LoweringCx.intern_ty,
    FuncBuilder.new, FuncBuilder.finish, initFnCtxt, exUnit, intTS, spn,
    DirectDeclarator.name, List.findIdx?_cons]

/-- C3 amended: the per-function statement lowering completes with Ok on
a body in the supported subset, but `lower_translation_unit` never
returns Ok for any input: a lowered function's final basic block never
receives a terminator so `finish`'s assertion fails, and even past the
loop the function unconditionally hits `todo!("building is not
really")`. -/
theorem lower_translation_unit_never_ok :
    (∀ (ast : TranslationUnit) (r : Unit), lower_translation_unit ast ≠ .ok r)
  ∧ (∃ cx', FnLoweringCtxt.lower_body exSt0 exIfElse = .ok cx') := by
  constructor
  · intro ast r h
    unfold lower_translation_unit at h
    rcases hl : ltuLoop ⟨[], []⟩ ast with a | e | m <;> rw [hl] at h <;>
      simp at h
  · refine ⟨⟨[[]],
      ⟨"f", spn 0, ⟨0, .Void⟩,
       [⟨[⟨.BinOp .Lt (.Const (.Int 1)) (.Const (.Int 2)) 0, spn 3⟩],
          .Switch (.Reg 0) 1 2⟩,
        ⟨[⟨.BinOp .Add (.Const (.Int 1)) (.Const (.Int 2)) 1, spn 6⟩], .Goto 3⟩,
        ⟨[⟨.BinOp .Sub (.Const (.Int 7)) (.Const (.Int 8)) 2, spn 9⟩], .Goto 3⟩,
        ⟨[], .Unset⟩],
       3, 3⟩,
      ⟨[.Void], [⟨0, 1⟩]⟩⟩, ?_⟩
    simp [FnLoweringCtxt.lower_body, FnLoweringCtxt.lower_stmt, FnLoweringCtxt.lower_expr,
      FnLoweringCtxt.lower_exprs, FnLoweringCtxt.lower_init_decls,
      LoweringCx.lower_ty, LoweringCx.intern_ty, LoweringCx.layout_of, sizeAlignFor,
      LoweringCx.intern_layout, Layout.size_align,
      FuncBuilder.new, FuncBuilder.push,
      FuncBuilder.alloca, FuncBuilder.store, FuncBuilder.binary, FuncBuilder.call,
      FuncBuilder.new_block, FuncBuilder.set_term, modifyIdx, u128_as_i128, initFnCtxt,
      exSt0, exIfElse, intE, spn, List.findIdx?_cons]

/-- Witness for the C3 amended theorem at a concrete input. -/
theorem lower_translation_unit_never_ok_witness :
    lower_translation_unit exUnit ≠ .ok () :=
  lower_translation_unit_never_ok.1 exUnit ()

/-! ## Call lowering (C7) -/

/-- C7 counterexample: lowering the call `f(1, 2)` does not yield a Call
statement — the callee `f` is an identifier reference, whose lowering is
the unimplemented fault `todo!("no idents")`, so the whole call
expression aborts. -/
theorem call_ident_callee_aborts :
    exSt0.lower_expr exCallIdent (spn 0) = .abort "no idents" := by
  simp [FnLoweringCtxt.lower_expr, FnLoweringCtxt.lower_exprs, exSt0, exCallIdent,
    initFnCtxt, spn]

/-- C7 amended: a call whose callee is lowerable (constant here — an
identifier callee aborts) yields exactly one Call statement appended to
the current block, with argument operand list `[Const a₁, Const a₂]` in
that order and the fresh result register, the result being unused
notwithstanding; and with callee `(1 * 2)` and statement-emitting
arguments `3 + 4` and `5 - 6`, the callee's BinOp is emitted first, the
arguments' BinOps left to right after it, then the single Call, whose
operand list is the callee's then the arguments' registers in declared
order. -/
theorem call_lowering_amended :
    (∀ (cx : FnLoweringCtxt) (c a₁ a₂ : Nat) (sp₀ sp₁ sp₂ sp₃ : Span),
      cx.lower_expr (.Postfix (.Atom (.Int c), sp₁)
          (.Call [(.Atom (.Int a₁), sp₂), (.Atom (.Int a₂), sp₃)])) sp₀
        = .ok (⟨cx.scopes,
                { cx.build with
                   bbs := modifyIdx cx.build.bbs cx.build.current_bb
                     (fun bb => { bb with statements := bb.statements ++
                       [⟨.Call cx.build.next_reg (.Const (.Int (u128_as_i128 c)))
                          [.Const (.Int (u128_as_i128 a₁)),
                           .Const (.Int (u128_as_i128 a₂))], sp₀⟩] }),
                   next_reg := cx.build.next_reg + 1 },
                ((cx.lcx.intern_ty .Void).1.intern_layout ⟨0, 1⟩).1⟩,
               .Reg cx.build.next_reg))
  ∧ exSt0.lower_expr exCallComplex (spn 0)
      = .ok (⟨[[]],
              ⟨"f", spn 0, ⟨0, .Void⟩,
               [⟨[⟨.BinOp .Mul (.Const (.Int 1)) (.Const (.Int 2)) 0, spn 3⟩,
                  ⟨.BinOp .Add (.Const (.Int 3)) (.Const (.Int 4)) 1, spn 6⟩,
                  ⟨.BinOp .Sub (.Const (.Int 5)) (.Const (.Int 6)) 2, spn 9⟩,
                  ⟨.Call 3 (.Reg 0) [.Reg 1, .Reg 2], spn 0⟩], .Unset⟩],
               0, 4⟩,
              ⟨[.Void], [⟨0, 1⟩]⟩⟩,
             .Reg 3) := by
  constructor
  · intro cx c a₁ a₂ sp₀ sp₁ sp₂ sp₃
    simp only [FnLoweringCtxt.lower_expr, FnLoweringCtxt.lower_exprs, LRes.bind_ok,
      LoweringCx.layout_of, intern_ty_val, sizeAlignFor, Layout.size_align,
      FuncBuilder.call, FuncBuilder.push]
  · simp [FnLoweringCtxt.lower_expr, FnLoweringCtxt.lower_exprs,
      LoweringCx.layout_of, LoweringCx.intern_ty, LoweringCx.intern_layout,
      sizeAlignFor, Layout.size_align, FuncBuilder.call, FuncBuilder.push,
      FuncBuilder.binary, FuncBuilder.new, modifyIdx, u128_as_i128, initFnCtxt,
      exSt0, exCallComplex, intE, spn, List.findIdx?_cons]


/-- C10: throughout the lowering of one function body the scope stack
contains exactly one scope: `lower_body` starts from a stack holding a
single empty scope, expression lowering leaves the scope stack untouched,
and no statement lowering ever pushes or pops a scope (the stack's depth
is invariant), so a body entered with one scope keeps exactly one scope
in every reachable state. -/
theorem scope_stack_single :
    (∀ (lcx : LoweringCx) (name : Symbol) (ds : Span) (rt : Ty),
      (initFnCtxt lcx name ds rt).scopes = [[]])
  ∧ (∀ (cx cx' : FnLoweringCtxt) (e : Expr) (sp : Span) (op : Operand),
      cx.lower_expr e sp = .ok (cx', op) → cx'.scopes = cx.scopes)
  ∧ (∀ (cx cx' : FnLoweringCtxt) (stmt : Stmt) (sp : Span),
      cx.lower_stmt stmt sp = .ok cx' → cx'.scopes.length = cx.scopes.length)
  ∧ (∀ (cx cx' : FnLoweringCtxt) (body : List (Stmt × Span)),
      cx.lower_body body = .ok cx' →
      cx.scopes.length = 1 → cx'.scopes.length = 1) :=
  ⟨fun _ _ _ _ => rfl,
   fun _ _ _ _ _ h => (lower_expr_ok h).1,
   fun _ _ _ _ h => lower_stmt_scopes_length h,
   fun _ _ _ h h1 => (lower_body_scopes_length h).trans h1⟩

/-- Witness for C10 at concrete inputs. -/
theorem scope_stack_single_witness :
    (initFnCtxt ⟨[], []⟩ "f" (spn 0) ⟨0, .Void⟩).scopes = [[]]
  ∧ exSt0.scopes = exSt0.scopes
  ∧ exSt0.scopes.length = exSt0.scopes.length
  ∧ exSt0.scopes.length = 1 :=
  ⟨scope_stack_single.1 ⟨[], []⟩ "f" (spn 0) ⟨0, .Void⟩,
   scope_stack_single.2.1 exSt0 exSt0 (.Atom (.Int 1)) (spn 0)
     (.Const (.Int 1)) rfl,
   scope_stack_single.2.2.1 exSt0 exSt0 (.Expr (.Atom (.Int 1))) (spn 0) rfl,
   scope_stack_single.2.2.2 exSt0 exSt0 [(.Expr (.Atom (.Int 1)), spn 1)] rfl rfl⟩

/-- C4: during lowering of a function body the only recoverable `Err` is
the unresolved-identifier-in-assignment-target error: expressions never
return `Err`; every `Err` a statement returns carries the message
`"cannot find variable <x>"`; a plain assignment to a bare identifier
that resolves in no active scope returns exactly that `Err`, carrying
the identifier's span, while a resolving target stores successfully; and
every other unsupported statement kind aborts the pass unconditionally. -/
theorem recoverable_err_only_unresolved_assignment :
    (∀ (cx : FnLoweringCtxt) (e : Expr) (sp : Span) (er : Error),
      cx.lower_expr e sp ≠ .err er)
  ∧ (∀ (cx : FnLoweringCtxt) (stmt : Stmt) (sp : Span) (er : Error),
      cx.lower_stmt stmt sp = .err er →
      ∃ x, er.message = "cannot find variable " ++ x)
  ∧ (∀ (cx cx₁ : FnLoweringCtxt) (x : Symbol) (xsp lsp sp : Span)
       (rhs : Expr × Span) (rop : Operand),
      cx.lower_expr rhs.1 rhs.2 = .ok (cx₁, rop) →
      cx₁.resolve_ident x = none →
      cx.lower_stmt
          (.Expr (.Binary (.Assign none) (.Atom (.Ident (x, xsp)), lsp) rhs)) sp
        = .err ⟨"cannot find variable " ++ x, xsp⟩)
  ∧ (∀ (cx cx₁ : FnLoweringCtxt) (x : Symbol) (xsp lsp sp : Span)
       (rhs : Expr × Span) (rop : Operand) (vi : VariableInfo),
      cx.lower_expr rhs.1 rhs.2 = .ok (cx₁, rop) →
      cx₁.resolve_ident x = some vi →
      cx.lower_stmt
          (.Expr (.Binary (.Assign none) (.Atom (.Ident (x, xsp)), lsp) rhs)) sp
        = .ok { cx₁ with
                 build := cx₁.build.store vi.ptr_to rop vi.tyl.layout.val sp })
  ∧ (∀ (cx : FnLoweringCtxt) (sp : Span) (l : Ident) (st : Stmt × Span)
       (ss tb : List (Stmt × Span)) (c : Expr) (g : Ident)
       (oe₁ oe₂ oe₃ : Option (Expr × Span)) (re : Option (Expr × Span)),
        cx.lower_stmt (.Labeled l st) sp = .abort "labels are not implemented"
      ∧ cx.lower_stmt (.Compound ss) sp = .abort "blocks are not implemented"
      ∧ cx.lower_stmt .Switch sp = .abort "not yet implemented"
      ∧ cx.lower_stmt (.While c tb) sp = .abort "not yet implemented"
      ∧ cx.lower_stmt (.For oe₁ oe₂ oe₃ tb) sp = .abort "not yet implemented"
      ∧ cx.lower_stmt (.Goto g) sp = .abort "not yet implemented"
      ∧ cx.lower_stmt .Continue sp = .abort "not yet implemented"
      ∧ cx.lower_stmt .Break sp = .abort "not yet implemented"
      ∧ cx.lower_stmt (.Return re) sp = .abort "not yet implemented") := by
  refine ⟨lower_expr_no_err, fun _ _ _ _ h => lower_stmt_err_shape h, ?_, ?_,
          fun _ _ _ _ _ _ _ _ _ _ _ _ =>
            ⟨rfl, rfl, rfl, rfl, rfl, rfl, rfl, rfl, rfl⟩⟩
  · intro cx cx₁ x xsp lsp sp rhs rop hrhs hres
    rw [FnLoweringCtxt.lower_stmt.eq_def]
    simp only [Option.isSome_none, Bool.false_eq_true, if_false]
    rw [hrhs]
    simp only [LRes.bind_ok]
    try simp only
    rw [hres]
  · intro cx cx₁ x xsp lsp sp rhs rop vi hrhs hres
    rw [FnLoweringCtxt.lower_stmt.eq_def]
    simp only [Option.isSome_none, Bool.false_eq_true, if_false]
    rw [hrhs]
    simp only [LRes.bind_ok]
    try simp only
    rw [hres]

/-- Witness for C4 at concrete inputs. -/
theorem recoverable_err_only_unresolved_assignment_witness :
    exSt0.lower_expr (.Atom (.Int 1)) (spn 0) ≠ .err ⟨"m", spn 0⟩
  ∧ (∃ x, Error.message ⟨"cannot find variable y", spn 7⟩
        = "cannot find variable " ++ x)
  ∧ exSt0.lower_stmt
        (.Expr (.Binary (.Assign none) (.Atom (.Ident ("y", spn 7)), spn 7)
          (.Atom (.Int 1), spn 8))) (spn 9)
      = .err ⟨"cannot find variable " ++ "y", spn 7⟩ :=
  ⟨recoverable_err_only_unresolved_assignment.1 exSt0 (.Atom (.Int 1)) (spn 0)
     ⟨"m", spn 0⟩,
   recoverable_err_only_unresolved_assignment.2.1 exSt0
     (.Expr (.Binary (.Assign none) (.Atom (.Ident ("y", spn 7)), spn 7)
       (.Atom (.Int 1), spn 8))) (spn 9) ⟨"cannot find variable y", spn 7⟩
     rfl,
   recoverable_err_only_unresolved_assignment.2.2.1 exSt0 exSt0 "y" (spn 7)
     (spn 7) (spn 9) (.Atom (.Int 1), spn 8) (.Const (.Int 1)) rfl rfl⟩

/-! ## If/else block shape (C2) -/

theorem bbTerm_set_term (b : FuncBuilder) (i j : Nat) (t : Branch) :
    bbTerm (b.set_term i t) j
      = if i = j ∧ j < b.bbs.length then t else bbTerm b j := by
  unfold bbTerm FuncBuilder.set_term
  show ((modifyIdx b.bbs i _).getD j _).term = _
  rw [getD_modifyIdx]
  split <;> rfl

theorem bbStmts_set_term (b : FuncBuilder) (i j : Nat) (t : Branch) :
    bbStmts (b.set_term i t) j = bbStmts b j := by
  unfold bbStmts FuncBuilder.set_term
  show ((modifyIdx b.bbs i _).getD j _).statements = _
  rw [getD_modifyIdx]
  split <;> rfl

theorem length_set_term (b : FuncBuilder) (i : Nat) (t : Branch) :
    (b.set_term i t).bbs.length = b.bbs.length :=
  length_modifyIdx ..

theorem getD_append_one {α : Type} (l : List α) (x d : α) (j : Nat) :
    (l ++ [x]).getD j d = if j < l.length then l.getD j d
      else if j = l.length then x else d := by
  rcases Nat.lt_trichotomy j l.length with h | h | h
  · rw [List.getD_append _ _ _ _ h, if_pos h]
  · subst h
    rw [if_neg (Nat.lt_irrefl _), if_pos rfl]
    rw [List.getD_eq_getElem?_getD, List.getElem?_append_right (Nat.le_refl _)]
    simp
  · rw [if_neg (Nat.not_lt.mpr (Nat.le_of_lt h)),
      if_neg (Nat.ne_of_gt h)]
    rw [List.getD_eq_getElem?_getD]
    have hn : (l ++ [x])[j]? = none := List.getElem?_eq_none (by simp; omega)
    rw [hn]
    rfl

theorem bbTerm_new_block (b : FuncBuilder) (j : Nat) :
    bbTerm (b.new_block).1 j = bbTerm b j := by
  unfold bbTerm FuncBuilder.new_block
  show ((b.bbs ++ [(⟨[], .Unset⟩ : BasicBlock)]).getD j _).term = _
  rw [getD_append_one]
  rcases Nat.lt_trichotomy j b.bbs.length with h | h | h
  · rw [if_pos h]
  · rw [if_neg (h ▸ Nat.lt_irrefl _), if_pos h]
    rw [List.getD_eq_getElem?_getD, List.getElem?_eq_none (Nat.le_of_eq h.symm)]
    rfl
  · rw [if_neg (Nat.not_lt.mpr (Nat.le_of_lt h)), if_neg (Nat.ne_of_gt h)]
    rw [List.getD_eq_getElem?_getD, List.getElem?_eq_none (Nat.le_of_lt h)]
    rfl

theorem bbStmts_new_block (b : FuncBuilder) (j : Nat) :
    bbStmts (b.new_block).1 j = bbStmts b j := by
  unfold bbStmts FuncBuilder.new_block
  show ((b.bbs ++ [(⟨[], .Unset⟩ : BasicBlock)]).getD j _).statements = _
  rw [getD_append_one]
  rcases Nat.lt_trichotomy j b.bbs.length with h | h | h
  · rw [if_pos h]
  · rw [if_neg (h ▸ Nat.lt_irrefl _), if_pos h]
    rw [List.getD_eq_getElem?_getD, List.getElem?_eq_none (Nat.le_of_eq h.symm)]
    rfl
  · rw [if_neg (Nat.not_lt.mpr (Nat.le_of_lt h)), if_neg (Nat.ne_of_gt h)]
    rw [List.getD_eq_getElem?_getD, List.getElem?_eq_none (Nat.le_of_lt h)]
    rfl

theorem length_new_block (b : FuncBuilder) :
    (b.new_block).1.bbs.length = b.bbs.length + 1 := by
  unfold FuncBuilder.new_block
  simp


theorem lower_stmt_straight {cx cx' : FnLoweringCtxt} {stmt : Stmt} {sp : Span}
    (hs : straightLine stmt = true) (h : cx.lower_stmt stmt sp = .ok cx') :
    extendsCur cx.build cx'.build := by
  cases stmt
  case Decl d =>
    rw [FnLoweringCtxt.lower_stmt.eq_def] at h
    simp only at h
    rw [LRes.bind_eq_ok] at h
    obtain ⟨nd, hnd, h⟩ := h
    exact ((lower_init_decls_frame _ _ _ _ _).2 cx' h).2
  case Expr e =>
    rcases e with a | ⟨uop, urhs⟩ | ⟨bop, blhs, brhs⟩ | ⟨plhs, pop⟩
    case Atom =>
      rw [FnLoweringCtxt.lower_stmt.eq_def] at h
      simp only at h
      rw [LRes.bind_eq_ok] at h
      obtain ⟨⟨cx₁, op₁⟩, h₁, h⟩ := h
      dsimp only at h
      cases h
      exact (lower_expr_ok h₁).2
    case Unary =>
      rw [FnLoweringCtxt.lower_stmt.eq_def] at h
      simp only at h
      rw [LRes.bind_eq_ok] at h
      obtain ⟨⟨cx₁, op₁⟩, h₁, h⟩ := h
      dsimp only at h
      cases h
      exact (lower_expr_ok h₁).2
    case Postfix =>
      rw [FnLoweringCtxt.lower_stmt.eq_def] at h
      simp only at h
      rw [LRes.bind_eq_ok] at h
      obtain ⟨⟨cx₁, op₁⟩, h₁, h⟩ := h
      dsimp only at h
      cases h
      exact (lower_expr_ok h₁).2
    case Binary =>
      rcases bop with k | _ | _ | k | _ | _ | asg
      case Assign =>
        rcases asg with _ | a
        · obtain ⟨lhe, lhsp⟩ := blhs
          rw [FnLoweringCtxt.lower_stmt.eq_def] at h
          simp only [Option.isSome_none, Bool.false_eq_true, if_false] at h
          rw [LRes.bind_eq_ok] at h
          obtain ⟨⟨cx₁, rop⟩, h₁, h⟩ := h
          simp only at h
          rcases lhe with la | ⟨uop₂, urhs₂⟩ | ⟨bop₂, bl₂, br₂⟩ | ⟨pl₂, pop₂⟩
          case Atom =>
            rcases la with ⟨x, xsp⟩ | i | f | bs | c
            case Ident =>
              simp only at h
              rcases hr : cx₁.resolve_ident x with _ | vi <;> rw [hr] at h
              · cases h
              · cases h
                exact extendsCur_trans (lower_expr_ok h₁).2 (extendsCur_store ..)
            all_goals cases h
          all_goals cases h
        · rw [FnLoweringCtxt.lower_stmt.eq_def] at h
          simp only at h
          cases h
      all_goals
        rw [FnLoweringCtxt.lower_stmt.eq_def] at h
      all_goals
        simp only at h
      all_goals
        rw [LRes.bind_eq_ok] at h
      all_goals
        obtain ⟨⟨cx₁, op₁⟩, h₁, h⟩ := h
      all_goals
        dsimp only at h
      all_goals
        cases h
      all_goals
        exact (lower_expr_ok h₁).2
  all_goals simp [straightLine] at hs

theorem lower_body_straight :
    ∀ {body : List (Stmt × Span)} {cx cx' : FnLoweringCtxt},
      (∀ p ∈ body, straightLine p.1 = true) →
      cx.lower_body body = .ok cx' →
      extendsCur cx.build cx'.build := by
  intro body
  induction body with
  | nil =>
    intro cx cx' hs h
    rw [FnLoweringCtxt.lower_body.eq_def] at h
    simp only [LRes.ok.injEq] at h
    subst h
    exact extendsCur_refl _
  | cons p rest ih =>
    obtain ⟨st, ssp⟩ := p
    intro cx cx' hs h
    rw [FnLoweringCtxt.lower_body.eq_def] at h
    simp only at h
    rw [LRes.bind_eq_ok] at h
    obtain ⟨cx₁, h₁, h⟩ := h
    exact extendsCur_trans
      (lower_stmt_straight (hs _ (List.mem_cons_self _ _)) h₁)
      (ih (fun q hq => hs q (List.mem_cons_of_mem _ hq)) h)


/-- Changing only the cursor of a builder changes no block's terminator. -/
theorem bbTerm_with_current (b : FuncBuilder) (c j : Nat) :
    bbTerm { b with current_bb := c } j = bbTerm b j := rfl

/-- Changing only the cursor of a builder changes no block's statements. -/
theorem bbStmts_with_current (b : FuncBuilder) (c j : Nat) :
    bbStmts { b with current_bb := c } j = bbStmts b j := rfl

/-- Shape of a successful `If`-with-else lowering from a one-block
builder positioned at block 0: four blocks, cursor on the continuation
block 3, block 0 switching on the condition operand between then-block 1
and else-block 2, both of which fall through to 3, and the continuation
block starts empty. -/
theorem lower_stmt_if_some_shape {cx₀ cx₁ stMid : FnLoweringCtxt} {bb0 : BasicBlock}
    {c : Expr} {csp isp : Span} {A B : List (Stmt × Span)} {condOp : Operand}
    (hc : cx₀.lower_expr c csp = .ok (cx₁, condOp))
    (hsA : ∀ p ∈ A, straightLine p.1 = true)
    (hsB : ∀ p ∈ B, straightLine p.1 = true)
    (hbb : cx₀.build.bbs = [bb0]) (hcur : cx₀.build.current_bb = 0)
    (h : cx₀.lower_stmt (.If (c, csp) A (some B)) isp = .ok stMid) :
    stMid.build.bbs.length = 4 ∧ stMid.build.current_bb = 3
    ∧ bbTerm stMid.build 0 = .Switch condOp 1 2
    ∧ bbTerm stMid.build 1 = .Goto 3
    ∧ bbTerm stMid.build 2 = .Goto 3
    ∧ bbStmts stMid.build 3 = []
    ∧ (∃ thenCx cxA : FnLoweringCtxt, thenCx.build.current_bb = 1
        ∧ bbStmts thenCx.build 1 = [] ∧ thenCx.lower_body A = .ok cxA
        ∧ bbStmts stMid.build 1 = bbStmts cxA.build 1)
    ∧ (∃ elsCx cxB : FnLoweringCtxt, elsCx.build.current_bb = 2
        ∧ bbStmts elsCx.build 2 = [] ∧ elsCx.lower_body B = .ok cxB
        ∧ bbStmts stMid.build 2 = bbStmts cxB.build 2) := by
  rw [FnLoweringCtxt.lower_stmt.eq_def] at h
  simp only at h
  rw [LRes.bind_eq_ok] at h
  obtain ⟨⟨cx₁', condOp'⟩, hc', h⟩ := h
  obtain ⟨rfl, rfl⟩ : cx₁ = cx₁' ∧ condOp = condOp' := by
    have hq := hc.symm.trans hc'
    simp only [LRes.ok.injEq, Prod.mk.injEq] at hq
    exact ⟨hq.1, hq.2⟩
  try dsimp only at h
  rw [LRes.bind_eq_ok] at h
  obtain ⟨cx₂, hA, h⟩ := h
  try dsimp only at h
  rw [LRes.bind_eq_ok] at h
  obtain ⟨cx₃, hB, h⟩ := h
  try dsimp only at h
  cases h
  -- facts about the condition lowering
  have eC := (lower_expr_ok hc).2
  have len1 : cx₁.build.bbs.length = 1 := by
    rw [extendsCur_length eC, hbb]
    rfl
  have cur1 : cx₁.build.current_bb = 0 := by
    rw [extendsCur_current eC, hcur]
  -- block handles
  have hthen : (cx₁.build.new_block).2 = 1 := len1
  have lenb1 : (cx₁.build.new_block).1.bbs.length = 2 := by
    rw [length_new_block, len1]
  have hels : ((cx₁.build.new_block).1.new_block).2 = 2 := lenb1
  have lenb2 : ((cx₁.build.new_block).1.new_block).1.bbs.length = 3 := by
    rw [length_new_block, lenb1]
  have hcont : (((cx₁.build.new_block).1.new_block).1.new_block).2 = 3 := lenb2
  have lenb3 : (((cx₁.build.new_block).1.new_block).1.new_block).1.bbs.length = 4 := by
    rw [length_new_block, lenb2]
  -- the then-body run
  have eA := lower_body_straight hsA hA
  have lenA : cx₂.build.bbs.length = 4 := by
    rw [extendsCur_length eA]
    exact lenb3
  have curA : cx₂.build.current_bb = 1 := by
    rw [extendsCur_current eA]
    exact hthen
  -- the else-body run
  have eB := lower_body_straight hsB hB
  have lenB : cx₃.build.bbs.length = 4 := by
    rw [extendsCur_length eB]
    show (FuncBuilder.set_term _ _ _).bbs.length = 4
    rw [length_set_term]
    exact lenA
  have curB : cx₃.build.current_bb = 2 := by
    rw [extendsCur_current eB]
    exact hels
  refine ⟨?_, ?_, ?_, ?_, ?_, ?_, ⟨_, cx₂, ?_, ?_, hA, ?_⟩, ⟨_, cx₃, ?_, ?_, hB, ?_⟩⟩
  · show ((FuncBuilder.set_term _ _ _).set_term _ _).bbs.length = 4
    rw [length_set_term, length_set_term]
    exact lenB
  · exact hcont
  · try dsimp only
    rw [bbTerm_with_current, bbTerm_set_term, if_pos]
    · rw [hthen, hels]
    · refine ⟨cur1, ?_⟩
      rw [length_set_term, lenB]
      decide
  · try dsimp only
    rw [bbTerm_with_current, bbTerm_set_term, if_neg]
    · rw [bbTerm_set_term, if_neg]
      · rw [extendsCur_term eB]
        try dsimp only
        rw [bbTerm_with_current, bbTerm_set_term, if_pos]
        · rw [hcont]
        · exact ⟨curA, by rw [lenA]; decide⟩
      · rw [curB]
        rintro ⟨h21, -⟩
        exact absurd h21 (by decide)
    · rw [cur1]
      rintro ⟨h01, -⟩
      exact absurd h01 (by decide)
  · try dsimp only
    rw [bbTerm_with_current, bbTerm_set_term, if_neg]
    · rw [bbTerm_set_term, if_pos]
      · rw [hcont]
      · exact ⟨curB, by rw [lenB]; decide⟩
    · rw [cur1]
      rintro ⟨h02, -⟩
      exact absurd h02 (by decide)
  · try dsimp only
    rw [bbStmts_with_current, bbStmts_set_term, bbStmts_set_term]
    rw [extendsCur_other eB 3 (by intro hq; exact absurd (hq.trans hels) (by decide))]
    try dsimp only
    rw [bbStmts_with_current, bbStmts_set_term]
    rw [extendsCur_other eA 3 (by intro hq; exact absurd (hq.trans hthen) (by decide))]
    try dsimp only
    rw [bbStmts_with_current, bbStmts_new_block, bbStmts_new_block, bbStmts_new_block]
    unfold bbStmts
    rw [List.getD_eq_getElem?_getD, List.getElem?_eq_none (by rw [len1]; decide)]
    rfl
  · exact hthen
  · try dsimp only
    rw [bbStmts_with_current, bbStmts_new_block, bbStmts_new_block, bbStmts_new_block]
    unfold bbStmts
    rw [List.getD_eq_getElem?_getD, List.getElem?_eq_none (by rw [len1])]
    rfl
  · try dsimp only
    rw [bbStmts_with_current, bbStmts_set_term, bbStmts_set_term]
    rw [extendsCur_other eB 1 (by intro hq; exact absurd (hq.trans hels) (by decide))]
    try dsimp only
    rw [bbStmts_with_current, bbStmts_set_term]
  · exact hels
  · try dsimp only
    rw [bbStmts_with_current, bbStmts_set_term]
    rw [extendsCur_other eA 2 (by intro hq; exact absurd (hq.trans hthen) (by decide))]
    try dsimp only
    rw [bbStmts_with_current, bbStmts_new_block, bbStmts_new_block, bbStmts_new_block]
    unfold bbStmts
    rw [List.getD_eq_getElem?_getD, List.getElem?_eq_none (by rw [len1]; decide)]
    rfl
  · try dsimp only
    rw [bbStmts_with_current, bbStmts_set_term, bbStmts_set_term]


/-- Shape of a successful `If`-without-else lowering from a one-block
builder positioned at block 0: three blocks, cursor on the continuation
block 2, block 0 switching on the condition operand between then-block 1
and the continuation block 2, the then-block falling through to 2, and
the continuation block starts empty. -/
theorem lower_stmt_if_none_shape {cx₀ cx₁ stMid : FnLoweringCtxt} {bb0 : BasicBlock}
    {c : Expr} {csp isp : Span} {A : List (Stmt × Span)} {condOp : Operand}
    (hc : cx₀.lower_expr c csp = .ok (cx₁, condOp))
    (hsA : ∀ p ∈ A, straightLine p.1 = true)
    (hbb : cx₀.build.bbs = [bb0]) (hcur : cx₀.build.current_bb = 0)
    (h : cx₀.lower_stmt (.If (c, csp) A none) isp = .ok stMid) :
    stMid.build.bbs.length = 3 ∧ stMid.build.current_bb = 2
    ∧ bbTerm stMid.build 0 = .Switch condOp 1 2
    ∧ bbTerm stMid.build 1 = .Goto 2
    ∧ bbStmts stMid.build 2 = []
    ∧ (∃ thenCx cxA : FnLoweringCtxt, thenCx.build.current_bb = 1
        ∧ bbStmts thenCx.build 1 = [] ∧ thenCx.lower_body A = .ok cxA
        ∧ bbStmts stMid.build 1 = bbStmts cxA.build 1) := by
  rw [FnLoweringCtxt.lower_stmt.eq_def] at h
  simp only at h
  rw [LRes.bind_eq_ok] at h
  obtain ⟨⟨cx₁', condOp'⟩, hc', h⟩ := h
  obtain ⟨rfl, rfl⟩ : cx₁ = cx₁' ∧ condOp = condOp' := by
    have hq := hc.symm.trans hc'
    simp only [LRes.ok.injEq, Prod.mk.injEq] at hq
    exact ⟨hq.1, hq.2⟩
  try dsimp only at h
  rw [LRes.bind_eq_ok] at h
  obtain ⟨cx₂, hA, h⟩ := h
  try dsimp only at h
  cases h
  have eC := (lower_expr_ok hc).2
  have len1 : cx₁.build.bbs.length = 1 := by
    rw [extendsCur_length eC, hbb]
    rfl
  have cur1 : cx₁.build.current_bb = 0 := by
    rw [extendsCur_current eC, hcur]
  have hthen : (cx₁.build.new_block).2 = 1 := len1
  have lenb1 : (cx₁.build.new_block).1.bbs.length = 2 := by
    rw [length_new_block, len1]
  have hcont : ((cx₁.build.new_block).1.new_block).2 = 2 := lenb1
  have lenb2 : ((cx₁.build.new_block).1.new_block).1.bbs.length = 3 := by
    rw [length_new_block, lenb1]
  have eA := lower_body_straight hsA hA
  have lenA : cx₂.build.bbs.length = 3 := by
    rw [extendsCur_length eA]
    exact lenb2
  have curA : cx₂.build.current_bb = 1 := by
    rw [extendsCur_current eA]
    exact hthen
  refine ⟨?_, ?_, ?_, ?_, ?_, ⟨_, cx₂, ?_, ?_, hA, ?_⟩⟩
  · show ((FuncBuilder.set_term _ _ _).set_term _ _).bbs.length = 3
    rw [length_set_term, length_set_term]
    exact lenA
  · exact hcont
  · try dsimp only
    rw [bbTerm_with_current, bbTerm_set_term, if_pos]
    · rw [hthen, hcont]
    · refine ⟨cur1, ?_⟩
      rw [length_set_term, lenA]
      decide
  · try dsimp only
    rw [bbTerm_with_current, bbTerm_set_term, if_neg]
    · rw [bbTerm_set_term, if_pos]
      · rw [hcont]
      · exact ⟨curA, by rw [lenA]; decide⟩
    · rw [cur1]
      rintro ⟨h01, -⟩
      exact absurd h01 (by decide)
  · try dsimp only
    rw [bbStmts_with_current, bbStmts_set_term, bbStmts_set_term]
    rw [extendsCur_other eA 2 (by intro hq; exact absurd (hq.trans hthen) (by decide))]
    try dsimp only
    rw [bbStmts_with_current, bbStmts_new_block, bbStmts_new_block]
    unfold bbStmts
    rw [List.getD_eq_getElem?_getD, List.getElem?_eq_none (by rw [len1]; decide)]
    rfl
  · exact hthen
  · try dsimp only
    rw [bbStmts_with_current, bbStmts_new_block, bbStmts_new_block]
    unfold bbStmts
    rw [List.getD_eq_getElem?_getD, List.getElem?_eq_none (by rw [len1])]
    rfl
  · try dsimp only
    rw [bbStmts_with_current, bbStmts_set_term, bbStmts_set_term]


/-- C2: lowering `if (c) { A } else { B }; S` (straight-line branches
and continuation statement) from a fresh one-block builder yields
exactly 4 basic blocks: the predecessor block 0 terminated by a Switch
on the lowered condition operand with true-target the then-block 1 and
false-target the else-block 2; the then-block holding exactly A's
statements and the else-block exactly B's, each terminated by Goto to
the continuation block 3; and the continuation, empty before `S`,
holding S's statements with the cursor left on it.  Without an else,
exactly 3 blocks arise and the Switch's false-target is the
continuation block 2 directly. -/
theorem if_else_block_shape :
    ∀ (cx₀ : FnLoweringCtxt) (bb0 : BasicBlock) (c : Expr) (csp isp ssp : Span)
      (A B : List (Stmt × Span)) (S : Stmt) (stF : FnLoweringCtxt),
    cx₀.build.bbs = [bb0] → cx₀.build.current_bb = 0 →
    (∀ p ∈ A, straightLine p.1 = true) →
    (∀ p ∈ B, straightLine p.1 = true) →
    straightLine S = true →
    (cx₀.lower_body [(.If (c, csp) A (some B), isp), (S, ssp)] = .ok stF →
      ∃ condOp stMid,
        (∃ cx₁, cx₀.lower_expr c csp = .ok (cx₁, condOp))
        ∧ cx₀.lower_stmt (.If (c, csp) A (some B)) isp = .ok stMid
        ∧ FnLoweringCtxt.lower_stmt stMid S ssp = .ok stF
        ∧ stMid.build.bbs.length = 4
        ∧ stMid.build.current_bb = 3
        ∧ bbStmts stMid.build 3 = []
        ∧ extendsCur stMid.build stF.build
        ∧ stF.build.bbs.length = 4
        ∧ stF.build.current_bb = 3
        ∧ bbTerm stF.build 0 = .Switch condOp 1 2
        ∧ bbTerm stF.build 1 = .Goto 3
        ∧ bbTerm stF.build 2 = .Goto 3
        ∧ (∃ thenCx cxA : FnLoweringCtxt, thenCx.build.current_bb = 1
            ∧ bbStmts thenCx.build 1 = [] ∧ thenCx.lower_body A = .ok cxA
            ∧ bbStmts stF.build 1 = bbStmts cxA.build 1)
        ∧ (∃ elsCx cxB : FnLoweringCtxt, elsCx.build.current_bb = 2
            ∧ bbStmts elsCx.build 2 = [] ∧ elsCx.lower_body B = .ok cxB
            ∧ bbStmts stF.build 2 = bbStmts cxB.build 2))
    ∧ (cx₀.lower_body [(.If (c, csp) A none, isp), (S, ssp)] = .ok stF →
      ∃ condOp stMid,
        (∃ cx₁, cx₀.lower_expr c csp = .ok (cx₁, condOp))
        ∧ cx₀.lower_stmt (.If (c, csp) A none) isp = .ok stMid
        ∧ FnLoweringCtxt.lower_stmt stMid S ssp = .ok stF
        ∧ stMid.build.bbs.length = 3
        ∧ stMid.build.current_bb = 2
        ∧ bbStmts stMid.build 2 = []
        ∧ extendsCur stMid.build stF.build
        ∧ stF.build.bbs.length = 3
        ∧ stF.build.current_bb = 2
        ∧ bbTerm stF.build 0 = .Switch condOp 1 2
        ∧ bbTerm stF.build 1 = .Goto 2
        ∧ (∃ thenCx cxA : FnLoweringCtxt, thenCx.build.current_bb = 1
            ∧ bbStmts thenCx.build 1 = [] ∧ thenCx.lower_body A = .ok cxA
            ∧ bbStmts stF.build 1 = bbStmts cxA.build 1)) := by
  intro cx₀ bb0 c csp isp ssp A B S stF hbb hcur hsA hsB hsS
  constructor
  · intro h
    rw [FnLoweringCtxt.lower_body.eq_def] at h
    simp only at h
    rw [LRes.bind_eq_ok] at h
    obtain ⟨stMid, hIf, h⟩ := h
    rw [FnLoweringCtxt.lower_body.eq_def] at h
    simp only at h
    rw [LRes.bind_eq_ok] at h
    obtain ⟨stF', hS, h⟩ := h
    rw [FnLoweringCtxt.lower_body.eq_def] at h
    simp only [LRes.ok.injEq] at h
    subst h
    have hIf2 := hIf
    rw [FnLoweringCtxt.lower_stmt.eq_def] at hIf2
    simp only at hIf2
    rw [LRes.bind_eq_ok] at hIf2
    obtain ⟨⟨cx₁, condOp⟩, hc, -⟩ := hIf2
    obtain ⟨len4, cur3, t0, t1, t2, s3, hThen, hEls⟩ :=
      lower_stmt_if_some_shape hc hsA hsB hbb hcur hIf
    have eS := lower_stmt_straight hsS hS
    have hne1 : (1 : Nat) ≠ stMid.build.current_bb := by rw [cur3]; decide
    have hne2 : (2 : Nat) ≠ stMid.build.current_bb := by rw [cur3]; decide
    refine ⟨condOp, stMid, ⟨cx₁, hc⟩, hIf, hS, len4, cur3, s3, eS,
      ?_, ?_, ?_, ?_, ?_, ?_, ?_⟩
    · rw [extendsCur_length eS]
      exact len4
    · rw [extendsCur_current eS]
      exact cur3
    · rw [extendsCur_term eS]
      exact t0
    · rw [extendsCur_term eS]
      exact t1
    · rw [extendsCur_term eS]
      exact t2
    · obtain ⟨tc, ca, h1, h2, h3, h4⟩ := hThen
      exact ⟨tc, ca, h1, h2, h3, by rw [extendsCur_other eS 1 hne1]; exact h4⟩
    · obtain ⟨ec, cb, h1, h2, h3, h4⟩ := hEls
      exact ⟨ec, cb, h1, h2, h3, by rw [extendsCur_other eS 2 hne2]; exact h4⟩
  · intro h
    rw [FnLoweringCtxt.lower_body.eq_def] at h
    simp only at h
    rw [LRes.bind_eq_ok] at h
    obtain ⟨stMid, hIf, h⟩ := h
    rw [FnLoweringCtxt.lower_body.eq_def] at h
    simp only at h
    rw [LRes.bind_eq_ok] at h
    obtain ⟨stF', hS, h⟩ := h
    rw [FnLoweringCtxt.lower_body.eq_def] at h
    simp only [LRes.ok.injEq] at h
    subst h
    have hIf2 := hIf
    rw [FnLoweringCtxt.lower_stmt.eq_def] at hIf2
    simp only at hIf2
    rw [LRes.bind_eq_ok] at hIf2
    obtain ⟨⟨cx₁, condOp⟩, hc, -⟩ := hIf2
    obtain ⟨len3, cur2, t0, t1, s2, hThen⟩ :=
      lower_stmt_if_none_shape hc hsA hbb hcur hIf
    have eS := lower_stmt_straight hsS hS
    have hne1 : (1 : Nat) ≠ stMid.build.current_bb := by rw [cur2]; decide
    refine ⟨condOp, stMid, ⟨cx₁, hc⟩, hIf, hS, len3, cur2, s2, eS,
      ?_, ?_, ?_, ?_, ?_⟩
    · rw [extendsCur_length eS]
      exact len3
    · rw [extendsCur_current eS]
      exact cur2
    · rw [extendsCur_term eS]
      exact t0
    · rw [extendsCur_term eS]
      exact t1
    · obtain ⟨tc, ca, h1, h2, h3, h4⟩ := hThen
      exact ⟨tc, ca, h1, h2, h3, by rw [extendsCur_other eS 1 hne1]; exact h4⟩


/-- Witness for C2 at the concrete body
`if (1 < 2) { 1 + 2; } else { 7 - 8; } 5;`. -/
theorem if_else_block_shape_witness :
    ∃ condOp stMid,
      (∃ cx₁, FnLoweringCtxt.lower_expr exSt0 exIfCond (spn 3) = .ok (cx₁, condOp))
      ∧ FnLoweringCtxt.lower_stmt exSt0
          (.If (exIfCond, spn 3) exIfThen (some exIfEls)) (spn 10) = .ok stMid
      ∧ FnLoweringCtxt.lower_stmt stMid (.Expr (.Atom (.Int 5))) (spn 11)
          = .ok exIfElseOut
      ∧ stMid.build.bbs.length = 4
      ∧ stMid.build.current_bb = 3
      ∧ bbStmts stMid.build 3 = []
      ∧ extendsCur stMid.build exIfElseOut.build
      ∧ exIfElseOut.build.bbs.length = 4
      ∧ exIfElseOut.build.current_bb = 3
      ∧ bbTerm exIfElseOut.build 0 = .Switch condOp 1 2
      ∧ bbTerm exIfElseOut.build 1 = .Goto 3
      ∧ bbTerm exIfElseOut.build 2 = .Goto 3
      ∧ (∃ thenCx cxA : FnLoweringCtxt, thenCx.build.current_bb = 1
          ∧ bbStmts thenCx.build 1 = [] ∧ thenCx.lower_body exIfThen = .ok cxA
          ∧ bbStmts exIfElseOut.build 1 = bbStmts cxA.build 1)
      ∧ (∃ elsCx cxB : FnLoweringCtxt, elsCx.build.current_bb = 2
          ∧ bbStmts elsCx.build 2 = [] ∧ elsCx.lower_body exIfEls = .ok cxB
          ∧ bbStmts exIfElseOut.build 2 = bbStmts cxB.build 2) :=
  (if_else_block_shape exSt0 ⟨[], .Unset⟩ exIfCond (spn 3) (spn 10) (spn 11)
      exIfThen exIfEls (.Expr (.Atom (.Int 5))) exIfElseOut rfl rfl
      (by decide) (by decide) rfl).1
    (by simp [FnLoweringCtxt.lower_body, FnLoweringCtxt.lower_stmt, FnLoweringCtxt.lower_expr,
      FnLoweringCtxt.lower_exprs, FnLoweringCtxt.lower_init_decls,
      LoweringCx.lower_ty, LoweringCx.intern_ty, LoweringCx.layout_of, sizeAlignFor,
      LoweringCx.intern_layout, Layout.size_align,
      FuncBuilder.new, FuncBuilder.push,
      FuncBuilder.alloca, FuncBuilder.store, FuncBuilder.binary, FuncBuilder.call,
      FuncBuilder.new_block, FuncBuilder.set_term, modifyIdx, u128_as_i128, initFnCtxt,
      exSt0, exIfCond, exIfThen, exIfEls, exIfElseOut, intE, spn, List.findIdx?_cons])


end Uwucc
